import Mathlib

/-!
# Item 22 (pimpl idiom): ownership semantics of `Widget`

A shallow embedding of `Item22_pimpl.cpp` / `Item22_widget.cpp`.

* `Widget` has one data member, `std::unique_ptr<Impl> pimpl_`.  A `unique_ptr`
  is its stored pointer: `none` is `nullptr`, `some p` is the address of an
  `Impl` on the free store.
* The free store is explicit (`Heap`): the live `Impl` objects, the next fresh
  address, and the log of `delete`d addresses.
* Every special member function of `Widget` is a state transformer on `State`
  (live `Widget` objects by identity, the free store, and what was written to
  `std::cout`).  Objects are referred to by identity, so that `rhs` and
  `*this` may be the same object, as references allow in C++.
* `std::make_unique` may throw `std::bad_alloc`; whether it does is the
  argument `oom` of the operations that allocate.
* Behaviour the language leaves undefined (dereferencing an empty
  `unique_ptr`, using an object outside its lifetime) is `Outcome.undefined`.

The library operations used by the source are modelled by their specification
in the C++ standard: `unique_ptr::release`, `unique_ptr::reset`, the move
assignment of `unique_ptr` (`reset(u.release())`), and `~unique_ptr`.
-/

namespace Item22

/-! ## Data model -/

/-- Address of an `Impl` on the free store.  An address names one allocation:
`operator new` hands out `Heap.next` and never the same address twice. -/
abbrev Addr := Nat

/-- Identity of a `Widget` object (a variable of the caller). -/
abbrev ObjId := Nat

/-- A `double`, kept as its 64-bit pattern: the program only copies them. -/
abbrev Double := Nat

/-- The class `Widget::Impl`: `std::string name_; std::vector<double> data_; int i_;`
(`name`, `data`, `i` in `Item22_pimpl.cpp`). -/
structure Impl where
  name_ : String
  data_ : List Double
  i_ : Int
deriving DecidableEq, Repr

/-- The constructor `Impl(int i = 0) : i_(i) {}` of `Item22_widget.cpp`: the string and
the vector are default-constructed, hence empty. -/
def Impl.ctor (i : Int) : Impl :=
  { name_ := "", data_ := [], i_ := i }

/-- The value-initialisation `Impl()` of `Item22_pimpl.cpp`, where `Impl` has no
user-provided constructor: `std::make_unique<Impl>()` zero-initialises `i`. -/
def Impl.valueInit : Impl :=
  { name_ := "", data_ := [], i_ := 0 }

/-- The member function `int GetInfo() { return i_; }`. -/
def Impl.GetInfo (self : Impl) : Int :=
  self.i_

/-- The implicitly-defined copy constructor of `Impl`: member-wise copy. -/
def Impl.copy (rhs : Impl) : Impl :=
  { name_ := rhs.name_, data_ := rhs.data_, i_ := rhs.i_ }

/-- The free store, as far as `Impl` objects are concerned. -/
structure Heap where
  /-- The `Impl` object living at an address, if any. -/
  cells : Addr → Option Impl
  /-- The next address `operator new` hands out. -/
  next : Addr
  /-- The addresses passed to `delete`, oldest first. -/
  freed : List Addr

/-- The free store once a new `Impl` equal to `v` has been placed at the fresh address. -/
def Heap.push (v : Impl) (h : Heap) : Heap :=
  { cells := fun q => if q = h.next then some v else h.cells q,
    next := h.next + 1,
    freed := h.freed }

/-- The free store once the `Impl` at `p` has been destroyed and its storage given back. -/
def Heap.remove (p : Addr) (h : Heap) : Heap :=
  { cells := fun q => if q = p then none else h.cells q,
    next := h.next,
    freed := h.freed ++ [p] }

/-- The new-expression `new Impl(v)`: `none` is `std::bad_alloc`. -/
def Heap.new (oom : Bool) (v : Impl) (h : Heap) : Option (Addr × Heap) :=
  if oom then none else some (h.next, h.push v)

/-- The delete-expression `delete p` for `p` not null: `none` is undefined behaviour
(no live `Impl` at `p`). -/
def Heap.delete (p : Addr) (h : Heap) : Option Heap :=
  match h.cells p with
  | none => none
  | some _ => some (h.remove p)

/-- The class `Widget`: its only data member is `std::unique_ptr<Impl> pimpl_`. -/
structure Widget where
  pimpl_ : Option Addr
deriving DecidableEq, Repr

/-- What `std::cout` received. -/
inductive Token where
  | int (n : Int)
  | endl
deriving DecidableEq, Repr

/-- Program state: the `Widget` objects within their lifetime, the free store, and
the output written so far. -/
structure State where
  objs : ObjId → Option Widget
  heap : Heap
  cout : List Token

/-- Result of running one member function. -/
inductive Outcome where
  /-- The call returned. -/
  | ok (st : State)
  /-- The call left by a `std::bad_alloc` exception; `st` is the state after unwinding. -/
  | threw (st : State)
  /-- The call has undefined behaviour. -/
  | undefined

/-- The state before `main` runs: no object, nothing allocated, nothing printed. -/
def State.init : State :=
  { objs := fun _ => none,
    heap := { cells := fun _ => none, next := 0, freed := [] },
    cout := [] }

/-- Replace (or begin, or end) the object with identity `v`. -/
def State.setObj (st : State) (v : ObjId) (w : Option Widget) : State :=
  { st with objs := fun u => if u = v then w else st.objs u }

/-! ## Library operations on the member `pimpl_` -/

/-- The call `std::make_unique<Impl>(v)`: allocates and returns the owning pointer;
`none` is `std::bad_alloc`, which leaves the state as it was. -/
def make_unique (oom : Bool) (v : Impl) (st : State) : Option (Addr × State) :=
  match st.heap.new oom v with
  | none => none
  | some (p, h) => some (p, { st with heap := h })

/-- The expression `*v.pimpl_`; `none` is undefined behaviour (`v` is not a live object,
its pointer is null, or nothing lives where it points). -/
def deref (st : State) (v : ObjId) : Option Impl :=
  match st.objs v with
  | none => none
  | some w =>
    match w.pimpl_ with
    | none => none
    | some p => st.heap.cells p

/-- The call `v.pimpl_.release()`: returns the stored pointer and leaves `v.pimpl_` null.
`none`: `v` is not a live object. -/
def release (v : ObjId) (st : State) : Option (Option Addr × State) :=
  match st.objs v with
  | none => none
  | some w => some (w.pimpl_, st.setObj v (some { pimpl_ := none }))

/-- The call `v.pimpl_.reset(p)`: stores `p`, then deletes the old stored pointer if it was
not null.  `none`: `v` is not a live object, or the `delete` is undefined. -/
def reset (v : ObjId) (p : Option Addr) (st : State) : Option State :=
  match st.objs v with
  | none => none
  | some w =>
    let st1 := st.setObj v (some { pimpl_ := p })
    match w.pimpl_ with
    | none => some st1
    | some old =>
      match st1.heap.delete old with
      | none => none
      | some h => some { st1 with heap := h }

/-! ## The member functions of `Widget` -/

/-- The constructor `Widget::Widget(int i) : pimpl_(std::make_unique<Impl>(i)) {}`
(`Item22_widget.cpp`).  `self` must not name a live object. -/
def Widget.ctor (oom : Bool) (self : ObjId) (i : Int) (st : State) : Outcome :=
  match st.objs self with
  | some _ => .undefined
  | none =>
    match make_unique oom (Impl.ctor i) st with
    | none => .threw st
    | some (p, st1) => .ok (st1.setObj self (some { pimpl_ := some p }))

/-- Modelled from the spec: the default argument of `Widget(int)`.  The declaration
`Widget(int i = ...)` that `Item22_widget.cpp` defines against is not among the sources
(`Item22_pimpl.h` declares `Widget()` only); the spec gives "variant B takes an integer,
default 0", which is also the default of `Impl(int i = 0)`. -/
def Widget.defaultArg : Int := 0

/-- The constructor `Widget::Widget() : pimpl_(std::make_unique<Impl>()) {}`
(`Item22_pimpl.cpp`). -/
def Widget.ctorA (oom : Bool) (self : ObjId) (st : State) : Outcome :=
  match st.objs self with
  | some _ => .undefined
  | none =>
    match make_unique oom Impl.valueInit st with
    | none => .threw st
    | some (p, st1) => .ok (st1.setObj self (some { pimpl_ := some p }))

/-- The copy constructor
`Widget::Widget(const Widget& rhs) : pimpl_(std::make_unique<Impl>(*rhs.pimpl_)) {}`. -/
def Widget.copyCtor (oom : Bool) (self rhs : ObjId) (st : State) : Outcome :=
  match st.objs self with
  | some _ => .undefined
  | none =>
    match deref st rhs with
    | none => .undefined
    | some src =>
      match make_unique oom (Impl.copy src) st with
      | none => .threw st
      | some (p, st1) => .ok (st1.setObj self (some { pimpl_ := some p }))

/-- The move constructor
`Widget::Widget(Widget&& rhs) noexcept : pimpl_(std::move(rhs.pimpl_)) {}`:
the move constructor of `unique_ptr` takes `rhs.pimpl_.release()`. -/
def Widget.moveCtor (self rhs : ObjId) (st : State) : Outcome :=
  match st.objs self with
  | some _ => .undefined
  | none =>
    match release rhs st with
    | none => .undefined
    | some (p, st1) => .ok (st1.setObj self (some { pimpl_ := p }))

/-- The copy assignment
`pimpl_ = std::make_unique<Impl>(*rhs.pimpl_); return *this;`:
the temporary is built first, then move-assigned into `pimpl_`
(`pimpl_.reset(tmp.release())`), and dies empty. -/
def Widget.copyAssign (oom : Bool) (self rhs : ObjId) (st : State) : Outcome :=
  match st.objs self with
  | none => .undefined
  | some _ =>
    match deref st rhs with
    | none => .undefined
    | some src =>
      match make_unique oom (Impl.copy src) st with
      | none => .threw st
      | some (p, st1) =>
        match reset self (some p) st1 with
        | none => .undefined
        | some st2 => .ok st2

/-- The move assignment `pimpl_ = std::move(rhs.pimpl_); return *this;`:
the move assignment of `unique_ptr` is `pimpl_.reset(rhs.pimpl_.release())`. -/
def Widget.moveAssign (self rhs : ObjId) (st : State) : Outcome :=
  match st.objs self with
  | none => .undefined
  | some _ =>
    match release rhs st with
    | none => .undefined
    | some (p, st1) =>
      match reset self p st1 with
      | none => .undefined
      | some st2 => .ok st2

/-- The destructor `Widget::~Widget() = default;`: destroys `pimpl_`, whose destructor
deletes the stored pointer if it is not null; the lifetime of `self` ends. -/
def Widget.dtor (self : ObjId) (st : State) : Outcome :=
  match st.objs self with
  | none => .undefined
  | some w =>
    match w.pimpl_ with
    | none => .ok (st.setObj self none)
    | some p =>
      match st.heap.delete p with
      | none => .undefined
      | some h => .ok ({ st with heap := h }.setObj self none)

/-- The member function
`void Widget::PrintInfo() { std::cout << pimpl_->GetInfo() << std::endl; }`. -/
def Widget.PrintInfo (self : ObjId) (st : State) : Outcome :=
  match deref st self with
  | none => .undefined
  | some impl => .ok { st with cout := st.cout ++ [Token.int impl.GetInfo, Token.endl] }

/-- The expression `v.pimpl_->GetInfo()`; `none` is undefined behaviour. -/
def getInfo (st : State) (v : ObjId) : Option Int :=
  (deref st v).map Impl.GetInfo

/-! ## The step relation -/

/-- What a caller can do with `Widget` objects. -/
inductive Op where
  /-- The declaration `Widget self(i);` (`Item22_widget.cpp`). -/
  | construct (self : ObjId) (i : Int)
  /-- The declaration `Widget self;` (`Item22_pimpl.cpp`). -/
  | constructA (self : ObjId)
  /-- The declaration `Widget self(rhs);`. -/
  | copyConstruct (self rhs : ObjId)
  /-- The declaration `Widget self(std::move(rhs));`. -/
  | moveConstruct (self rhs : ObjId)
  /-- The statement `self = rhs;`. -/
  | copyAssign (self rhs : ObjId)
  /-- The statement `self = std::move(rhs);`. -/
  | moveAssign (self rhs : ObjId)
  /-- The end of the lifetime of `self`. -/
  | destroy (self : ObjId)
  /-- The statement `self.PrintInfo();`. -/
  | printInfo (self : ObjId)
deriving DecidableEq, Repr

/-- One operation; `oom` tells whether an allocation made by it fails. -/
def step (oom : Bool) : Op → State → Outcome
  | .construct self i, st => Widget.ctor oom self i st
  | .constructA self, st => Widget.ctorA oom self st
  | .copyConstruct self rhs, st => Widget.copyCtor oom self rhs st
  | .moveConstruct self rhs, st => Widget.moveCtor self rhs st
  | .copyAssign self rhs, st => Widget.copyAssign oom self rhs st
  | .moveAssign self rhs, st => Widget.moveAssign self rhs st
  | .destroy self, st => Widget.dtor self st
  | .printInfo self, st => Widget.PrintInfo self st

/-- A sequence of operations; an exception is caught by the caller and the run goes on,
undefined behaviour ends it (`none`). -/
def run : List (Bool × Op) → State → Option State
  | [], st => some st
  | (oom, op) :: rest, st =>
    match step oom op st with
    | .ok st1 => run rest st1
    | .threw st1 => run rest st1
    | .undefined => none

/-- The states a program can be in. -/
inductive Reachable : State → Prop where
  | init : Reachable State.init
  | ok {st st1 : State} (oom : Bool) (op : Op) :
      Reachable st → step oom op st = .ok st1 → Reachable st1
  | threw {st st1 : State} (oom : Bool) (op : Op) :
      Reachable st → step oom op st = .threw st1 → Reachable st1

/-! ## Ownership -/

/-- The live object `v` owns the implementation at `p`. -/
def owns (st : State) (v : ObjId) (p : Addr) : Prop :=
  st.objs v = some { pimpl_ := some p }

/-- The object `v` is live and empty (moved-from). -/
def isEmpty (st : State) (v : ObjId) : Prop :=
  st.objs v = some { pimpl_ := none }

/-- The address `p` holds a live `Impl`. -/
def live (st : State) (p : Addr) : Prop :=
  st.heap.cells p ≠ none

instance (st : State) (v : ObjId) (p : Addr) : Decidable (owns st v p) :=
  inferInstanceAs (Decidable (st.objs v = some { pimpl_ := some p }))

instance (st : State) (v : ObjId) : Decidable (isEmpty st v) :=
  inferInstanceAs (Decidable (st.objs v = some { pimpl_ := none }))

instance (st : State) (p : Addr) : Decidable (live st p) :=
  inferInstanceAs (Decidable (st.heap.cells p ≠ none))

/-- Exclusive ownership: the invariant of the free store and the objects. -/
structure WF (st : State) : Prop where
  owned_live : ∀ v p, owns st v p → live st p
  exclusive : ∀ v u p, owns st v p → owns st u p → v = u
  no_leak : ∀ p, live st p → ∃ v, owns st v p
  live_lt : ∀ p, live st p → p < st.heap.next
  freed_nodup : st.heap.freed.Nodup
  freed_dead : ∀ p, p ∈ st.heap.freed → st.heap.cells p = none ∧ p < st.heap.next
  accounted : ∀ p, p < st.heap.next → live st p ∨ p ∈ st.heap.freed

/-- Exclusive ownership while a member function runs and holds the pointer `tmp` in a
temporary `unique_ptr` (or in a constructor's member initialiser). -/
structure WFt (tmp : Option Addr) (st : State) : Prop where
  owned_live : ∀ v p, owns st v p → live st p
  exclusive : ∀ v u p, owns st v p → owns st u p → v = u
  tmp_live : ∀ p, tmp = some p → live st p
  tmp_fresh : ∀ v p, tmp = some p → ¬ owns st v p
  no_leak : ∀ p, live st p → tmp = some p ∨ ∃ v, owns st v p
  live_lt : ∀ p, live st p → p < st.heap.next
  freed_nodup : st.heap.freed.Nodup
  freed_dead : ∀ p, p ∈ st.heap.freed → st.heap.cells p = none ∧ p < st.heap.next
  accounted : ∀ p, p < st.heap.next → live st p ∨ p ∈ st.heap.freed

/-! ## Derived notions used to state the results -/

/-- The stored pointer of `v.pimpl_`, null when `v` is not a live object. -/
def held (st : State) (v : ObjId) : Option Addr :=
  match st.objs v with
  | none => none
  | some w => w.pimpl_

/-- The free store once a `unique_ptr` holding `t` has been destroyed. -/
def Heap.dispose (t : Option Addr) (h : Heap) : Heap :=
  match t with
  | none => h
  | some p => h.remove p

/-- The state after a successful `Widget(i)` / `Widget()` / copy construction whose new
`Impl` is `v`. -/
def State.built (st : State) (self : ObjId) (v : Impl) : State :=
  { st with heap := st.heap.push v }.setObj self (some { pimpl_ := some st.heap.next })

/-- The state after `v.pimpl_.reset(p)` when `v.pimpl_` held `old`. -/
def State.stored (st : State) (v : ObjId) (p old : Option Addr) : State :=
  { st.setObj v (some { pimpl_ := p }) with heap := st.heap.dispose old }

/-- The state after the lifetime of `v`, whose `pimpl_` held `old`, has ended. -/
def State.ended (st : State) (v : ObjId) (old : Option Addr) : State :=
  { st.setObj v none with heap := st.heap.dispose old }

/-- The state after `PrintInfo` on an object whose implementation is `impl`. -/
def State.printed (st : State) (impl : Impl) : State :=
  { st with cout := st.cout ++ [Token.int impl.GetInfo, Token.endl] }

/-- What a step that returned has done, operation by operation. -/
def StepSpec (oom : Bool) (st : State) : Op → State → Prop
  | .construct self i, st1 =>
      st.objs self = none ∧ oom = false ∧ st1 = st.built self (Impl.ctor i)
  | .constructA self, st1 =>
      st.objs self = none ∧ oom = false ∧ st1 = st.built self Impl.valueInit
  | .copyConstruct self rhs, st1 =>
      st.objs self = none ∧ oom = false ∧
        ∃ src, deref st rhs = some src ∧ st1 = st.built self (Impl.copy src)
  | .moveConstruct self rhs, st1 =>
      st.objs self = none ∧ ∃ w, st.objs rhs = some w ∧
        st1 = (st.setObj rhs (some { pimpl_ := none })).setObj self (some { pimpl_ := w.pimpl_ })
  | .copyAssign self rhs, st1 =>
      oom = false ∧ ∃ w src, st.objs self = some w ∧ deref st rhs = some src ∧
        st1 = State.stored { st with heap := st.heap.push (Impl.copy src) } self
          (some st.heap.next) w.pimpl_
  | .moveAssign self rhs, st1 =>
      ∃ w w1, st.objs self = some w ∧ st.objs rhs = some w1 ∧
        st1 = State.stored (st.setObj rhs (some { pimpl_ := none })) self w1.pimpl_
          (if self = rhs then none else w.pimpl_)
  | .destroy self, st1 =>
      ∃ w, st.objs self = some w ∧ st1 = st.ended self w.pimpl_
  | .printInfo self, st1 =>
      ∃ impl, deref st self = some impl ∧ st1 = st.printed impl

/-- The objects whose member `pimpl_` an operation stores into (or whose lifetime it begins
or ends). -/
def Op.writes : Op → List ObjId
  | .construct self _ => [self]
  | .constructA self => [self]
  | .copyConstruct self _ => [self]
  | .moveConstruct self rhs => [self, rhs]
  | .copyAssign self _ => [self]
  | .moveAssign self rhs => [self, rhs]
  | .destroy self => [self]
  | .printInfo _ => []

/-- The object an operation destroys or assigns to, if any. -/
def Op.retires : Op → Option ObjId
  | .copyAssign self _ => some self
  | .moveAssign self _ => some self
  | .destroy self => some self
  | _ => none

/-- Something that happened to an object, as far as its member `pimpl_` is concerned. -/
inductive Event where
  /-- It was constructed by `Widget(int)`, by `Widget()` or by the copy constructor. -/
  | constructed
  /-- It was move-constructed; `srcOwned` tells whether the source owned an
  implementation. -/
  | moveConstructed (srcOwned : Bool)
  /-- It was the target of a copy or move assignment; `srcOwned` tells whether the source
  owned an implementation. -/
  | assigned (srcOwned : Bool)
  /-- It was the source of a move construction or move assignment. -/
  | movedFrom
deriving DecidableEq, Repr

/-- The history of a program: for each object, everything that happened to it since its
construction, latest first; empty for an object that is not live. -/
abbrev Hist := ObjId → List Event

/-- The history after an operation that returned, `st` being the state before it.  Nothing
is forgotten while the object lives.  In `self = std::move(self)` the source is released
before the target stores, so the assignment is the later of the two events. -/
def record (st : State) : Op → Hist → Hist
  | .construct self _, g => fun u => if u = self then [.constructed] else g u
  | .constructA self, g => fun u => if u = self then [.constructed] else g u
  | .copyConstruct self _, g => fun u => if u = self then [.constructed] else g u
  | .moveConstruct self rhs, g => fun u =>
      if u = self then [.moveConstructed (held st rhs).isSome]
      else if u = rhs then .movedFrom :: g u else g u
  | .copyAssign self rhs, g => fun u =>
      if u = self then .assigned (held st rhs).isSome :: g u else g u
  | .moveAssign self rhs, g => fun u =>
      if u = self then
        .assigned (held st rhs).isSome :: (if self = rhs then .movedFrom :: g u else g u)
      else if u = rhs then .movedFrom :: g u else g u
  | .destroy self, g => fun u => if u = self then [] else g u
  | .printInfo _, g => g

/-- A sequence of operations, with the history kept alongside the state. -/
def runH : List (Bool × Op) → State → Hist → Option (State × Hist)
  | [], st, g => some (st, g)
  | (oom, op) :: rest, st, g =>
    match step oom op st with
    | .ok st1 => runH rest st1 (record st op g)
    | .threw st1 => runH rest st1 g
    | .undefined => none

/-- The condition of the invariant as it is worded: the object "has not been the source of
a move since it was last constructed or last assigned from a valid source".  Going back
from the latest event: a move from the object ends the search with `false`, its
construction (of any kind) or an assignment from a source owning an implementation ends
it with `true`, and an assignment from an empty source is neither, so the search goes
on. -/
def keptAsWorded : List Event → Bool
  | [] => false
  | .constructed :: _ => true
  | .moveConstructed _ :: _ => true
  | .assigned true :: _ => true
  | .assigned false :: h => keptAsWorded h
  | .movedFrom :: _ => false

/-- The condition as amended: the object has neither been the source of a move nor been
assigned from an empty source since it was last constructed (a move construction from an
empty source not counting) or last assigned from a source owning an implementation.  Going
back from the latest event: a move from the object or an assignment from an empty source
ends the search with `false`, an assignment from an owning source or a construction other
than a move construction from an empty source ends it with `true`; a move construction
from an empty source is the first event of the object, so nothing before it can count. -/
def kept : List Event → Bool
  | [] => false
  | .constructed :: _ => true
  | .moveConstructed b :: _ => b
  | .assigned b :: _ => b
  | .movedFrom :: _ => false

/-- The object "was the source of a move and has not since been reassigned": its latest
event is a move from it. -/
def movedNotReassigned : List Event → Bool
  | .movedFrom :: _ => true
  | _ => false

/-- Whether an object is live, and if so whether it owns an implementation. -/
def status (st : State) (v : ObjId) : Option Bool :=
  (st.objs v).map (fun w => w.pimpl_.isSome)

/-- What the history says about `status`: nothing for an object without history, and
otherwise whether the amended condition holds. -/
def histStatus : List Event → Option Bool
  | [] => none
  | e :: h => some (kept (e :: h))

/-- The state after `Widget w0(42);` at the start of a program. -/
def demo1 : State :=
  State.init.built 0 (Impl.ctor 42)

/-- The state after `Widget w0(42); Widget w1(w0);`. -/
def demo2 : State :=
  demo1.built 1 (Impl.copy (Impl.ctor 42))

/-- The state after `Widget w0(42); Widget w1(std::move(w0));`. -/
def demo3 : State :=
  (demo1.setObj 0 (some { pimpl_ := none })).setObj 1 (some { pimpl_ := some 0 })

/-- The history after `Widget w0(42); Widget w1(std::move(w0));`. -/
def demoHist3 : Hist :=
  record demo1 (.moveConstruct 1 0) (record State.init (.construct 0 42) (fun _ => []))

/-! ## Basic facts -/

theorem WF.toWFt {st : State} (h : WF st) : WFt none st where
  owned_live := h.owned_live
  exclusive := h.exclusive
  tmp_live := by intro p hp; cases hp
  tmp_fresh := by intro v p hp; cases hp
  no_leak := fun p hp => Or.inr (h.no_leak p hp)
  live_lt := h.live_lt
  freed_nodup := h.freed_nodup
  freed_dead := h.freed_dead
  accounted := h.accounted

theorem WFt.toWF {st : State} (h : WFt none st) : WF st where
  owned_live := h.owned_live
  exclusive := h.exclusive
  no_leak := by
    intro p hp
    rcases h.no_leak p hp with h1 | h1
    · cases h1
    · exact h1
  live_lt := h.live_lt
  freed_nodup := h.freed_nodup
  freed_dead := h.freed_dead
  accounted := h.accounted

theorem WF_init : WF State.init where
  owned_live := by intro v p h; simp [owns, State.init] at h
  exclusive := by intro v u p h; simp [owns, State.init] at h
  no_leak := by intro p h; simp [live, State.init] at h
  live_lt := by intro p h; simp [live, State.init] at h
  freed_nodup := by simp [State.init]
  freed_dead := by intro p h; simp [State.init] at h
  accounted := by intro p h; simp [State.init] at h

theorem make_unique_oom (v : Impl) (st : State) : make_unique true v st = none := rfl

theorem make_unique_ok (v : Impl) (st : State) :
    make_unique false v st = some (st.heap.next, { st with heap := st.heap.push v }) := rfl

/-- After `make_unique`, the temporary holds the fresh address. -/
theorem WFt_make_unique {st st1 : State} {v : Impl} {p : Addr} (h : WF st)
    (e : make_unique false v st = some (p, st1)) : WFt (some p) st1 := by
  rw [make_unique_ok] at e
  simp only [Option.some.injEq, Prod.mk.injEq] at e
  obtain ⟨rfl, rfl⟩ := e
  have hn : ∀ u, ¬ owns st u st.heap.next := by
    intro u hu
    exact Nat.lt_irrefl _ (h.live_lt _ (h.owned_live _ _ hu))
  constructor
  · intro u q hu
    have hl : live st q := h.owned_live u q hu
    by_cases hq : q = st.heap.next
    · simp [live, hq, Heap.push]
    · simpa [live, Heap.push, hq] using hl
  · intro u w q hu hw
    exact h.exclusive u w q hu hw
  · intro q hq
    simp only [Option.some.injEq] at hq
    subst hq
    simp [live, Heap.push]
  · intro u q hq hu
    simp only [Option.some.injEq] at hq
    subst hq
    exact hn u hu
  · intro q hq
    by_cases hqn : q = st.heap.next
    · left; simp [hqn]
    · right
      apply h.no_leak
      simpa [live, Heap.push, hqn] using hq
  · intro q hq
    by_cases hqn : q = st.heap.next
    · simp [hqn, Heap.push]
    · have : q < st.heap.next := h.live_lt q (by simpa [live, Heap.push, hqn] using hq)
      exact Nat.lt_succ_of_lt this
  · exact h.freed_nodup
  · intro q hq
    have := h.freed_dead q hq
    have h2 : q < st.heap.next := this.2
    have hne : q ≠ st.heap.next := Nat.ne_of_lt h2
    refine ⟨?_, ?_⟩
    · show (if q = st.heap.next then _ else st.heap.cells q) = none
      rw [if_neg hne]; exact this.1
    · exact Nat.lt_succ_of_lt h2
  · intro q hq
    have hq1 : q < st.heap.next + 1 := hq
    by_cases hqn : q = st.heap.next
    · left; simp [live, Heap.push, hqn]
    · have hq2 : q < st.heap.next := Nat.lt_of_le_of_ne (Nat.le_of_lt_succ hq1) hqn
      rcases h.accounted q hq2 with h3 | h3
      · left; simpa [live, Heap.push, hqn] using h3
      · right; exact h3

theorem owns_iff_held {st : State} {v : ObjId} {p : Addr} :
    owns st v p ↔ held st v = some p := by
  unfold owns held
  cases hv : st.objs v with
  | none => simp
  | some w =>
    cases w with
    | mk q => simp

theorem owns_setObj {st : State} {v u : ObjId} {x : Option Widget} {q : Addr} :
    owns (st.setObj v x) u q ↔
      (u = v ∧ x = some { pimpl_ := some q }) ∨ (u ≠ v ∧ owns st u q) := by
  unfold owns State.setObj
  by_cases huv : u = v <;> simp [huv]

/-- Storing into the member `pimpl_` of `v` (or beginning or ending the lifetime of `v`):
the pointer that was held by a temporary is now owned by `v`, and the one `v`
owned is now held by a temporary. -/
theorem WFt_exchange {st : State} {p : Option Addr} (h : WFt p st) (v : ObjId)
    (x : Option Widget) (hx : ∀ q, x = some { pimpl_ := some q } ↔ p = some q) :
    WFt (held st v) (st.setObj v x) := by
  constructor
  · intro u q hu
    rcases owns_setObj.1 hu with ⟨_, h1⟩ | ⟨_, h1⟩
    · exact h.tmp_live q ((hx q).1 h1)
    · exact h.owned_live u q h1
  · intro u1 u2 q h1 h2
    rcases owns_setObj.1 h1 with ⟨e1, x1⟩ | ⟨e1, x1⟩ <;>
      rcases owns_setObj.1 h2 with ⟨e2, x2⟩ | ⟨e2, x2⟩
    · rw [e1, e2]
    · exact absurd x2 (h.tmp_fresh u2 q ((hx q).1 x1))
    · exact absurd x1 (h.tmp_fresh u1 q ((hx q).1 x2))
    · exact h.exclusive u1 u2 q x1 x2
  · intro q hq
    exact h.owned_live v q (owns_iff_held.2 hq)
  · intro u q hq hu
    have hv : owns st v q := owns_iff_held.2 hq
    rcases owns_setObj.1 hu with ⟨_, h1⟩ | ⟨e1, h1⟩
    · exact h.tmp_fresh v q ((hx q).1 h1) hv
    · exact e1 (h.exclusive u v q h1 hv)
  · intro q hq
    rcases h.no_leak q hq with h1 | ⟨u, h1⟩
    · exact Or.inr ⟨v, owns_setObj.2 (Or.inl ⟨rfl, (hx q).2 h1⟩)⟩
    · by_cases huv : u = v
      · subst huv
        exact Or.inl (owns_iff_held.1 h1)
      · exact Or.inr ⟨u, owns_setObj.2 (Or.inr ⟨huv, h1⟩)⟩
  · exact h.live_lt
  · exact h.freed_nodup
  · exact h.freed_dead
  · exact h.accounted

theorem Heap.delete_live {h : Heap} {p : Addr} (hp : h.cells p ≠ none) :
    h.delete p = some (h.remove p) := by
  obtain ⟨v, hv⟩ := Option.ne_none_iff_exists'.1 hp
  simp [Heap.delete, hv]

/-- Deleting the pointer held by a temporary restores exclusive ownership. -/
theorem WF_remove {st : State} {old : Addr} (h : WFt (some old) st) :
    WF { st with heap := st.heap.remove old } := by
  have hl : live st old := h.tmp_live old rfl
  constructor
  · intro u q hu
    have hu1 : owns st u q := hu
    have hne : q ≠ old := by
      rintro rfl
      exact h.tmp_fresh u q rfl hu1
    have := h.owned_live u q hu1
    simpa [live, Heap.remove, hne] using this
  · intro u1 u2 q h1 h2
    exact h.exclusive u1 u2 q h1 h2
  · intro q hq
    have hne : q ≠ old := by
      rintro rfl
      simp [live, Heap.remove] at hq
    have hq1 : live st q := by simpa [live, Heap.remove, hne] using hq
    rcases h.no_leak q hq1 with h1 | h1
    · simp only [Option.some.injEq] at h1
      exact absurd h1.symm hne
    · exact h1
  · intro q hq
    have hne : q ≠ old := by
      rintro rfl
      simp [live, Heap.remove] at hq
    exact h.live_lt q (by simpa [live, Heap.remove, hne] using hq)
  · show (st.heap.freed ++ [old]).Nodup
    rw [List.nodup_append]
    refine ⟨h.freed_nodup, List.nodup_singleton old, ?_⟩
    intro a ha hb
    simp only [List.mem_singleton] at hb
    subst hb
    exact hl (h.freed_dead a ha).1
  · intro q hq
    have hq1 : q ∈ st.heap.freed ++ [old] := hq
    rw [List.mem_append, List.mem_singleton] at hq1
    rcases hq1 with h1 | h1
    · have := h.freed_dead q h1
      refine ⟨?_, this.2⟩
      show (if q = old then none else st.heap.cells q) = none
      split
      · rfl
      · exact this.1
    · subst h1
      refine ⟨?_, h.live_lt q hl⟩
      show (if q = q then none else st.heap.cells q) = none
      simp
  · intro q hq
    by_cases hne : q = old
    · right
      show q ∈ st.heap.freed ++ [old]
      simp [hne]
    · rcases h.accounted q hq with h3 | h3
      · left; simpa [live, Heap.remove, hne] using h3
      · right
        show q ∈ st.heap.freed ++ [old]
        simp [h3]

theorem WF_dispose {st : State} {t : Option Addr} (h : WFt t st) :
    WF { st with heap := st.heap.dispose t } := by
  cases t with
  | none => exact h.toWF
  | some old => exact WF_remove h

theorem held_of_objs {st : State} {v : ObjId} {w : Widget} (hv : st.objs v = some w) :
    held st v = w.pimpl_ := by
  simp [held, hv]

theorem held_of_none {st : State} {v : ObjId} (hv : st.objs v = none) :
    held st v = none := by
  simp [held, hv]

theorem widget_some_iff (p : Option Addr) (q : Addr) :
    (some ({ pimpl_ := p } : Widget) = some { pimpl_ := some q }) ↔ p = some q := by
  simp

/-- A constructor's member initialiser takes the pointer held by a temporary. -/
theorem WF_adopt {st : State} {p : Option Addr} {self : ObjId} (h : WFt p st)
    (hs : st.objs self = none) : WF (st.setObj self (some { pimpl_ := p })) := by
  have := WFt_exchange h self (some { pimpl_ := p }) (widget_some_iff p)
  rw [held_of_none hs] at this
  exact this.toWF

/-- After `v.pimpl_.release()` a temporary holds what `v` owned. -/
theorem WFt_release {st : State} {v : ObjId} {w : Widget} (h : WF st)
    (hv : st.objs v = some w) : WFt w.pimpl_ (st.setObj v (some { pimpl_ := none })) := by
  have := WFt_exchange h.toWFt v (some { pimpl_ := none }) (widget_some_iff none)
  rw [held_of_objs hv] at this
  exact this

/-- After `v.pimpl_.reset(p)`, where a temporary held `p`. -/
theorem WF_store {st : State} {p : Option Addr} {v : ObjId} {w : Widget} (h : WFt p st)
    (hv : st.objs v = some w) :
    WF { st.setObj v (some { pimpl_ := p }) with heap := st.heap.dispose w.pimpl_ } := by
  have := WFt_exchange h v (some { pimpl_ := p }) (widget_some_iff p)
  rw [held_of_objs hv] at this
  exact WF_dispose this

/-- After the lifetime of `v` has ended. -/
theorem WF_end {st : State} {v : ObjId} {w : Widget} (h : WF st)
    (hv : st.objs v = some w) :
    WF { st.setObj v none with heap := st.heap.dispose w.pimpl_ } := by
  have := WFt_exchange h.toWFt v none (by intro q; simp)
  rw [held_of_objs hv] at this
  exact WF_dispose this

theorem reset_eq (st : State) {v : ObjId} {w : Widget} (p : Option Addr)
    (hv : st.objs v = some w) (hl : ∀ old, w.pimpl_ = some old → live st old) :
    reset v p st =
      some { st.setObj v (some { pimpl_ := p }) with heap := st.heap.dispose w.pimpl_ } := by
  unfold reset
  simp only [hv]
  cases hw : w.pimpl_ with
  | none => rfl
  | some old =>
    have : (st.setObj v (some { pimpl_ := p })).heap.delete old = some (st.heap.remove old) :=
      Heap.delete_live (hl old hw)
    simp only [this]
    rfl

theorem release_eq {st : State} {v : ObjId} {w : Widget} (hv : st.objs v = some w) :
    release v st = some (w.pimpl_, st.setObj v (some { pimpl_ := none })) := by
  simp [release, hv]

/-! ## What each member function does -/

theorem Widget.ctor_eq {st : State} {self : ObjId} (oom : Bool) (i : Int)
    (hs : st.objs self = none) :
    Widget.ctor oom self i st =
      if oom then .threw st else .ok (st.built self (Impl.ctor i)) := by
  cases oom <;> simp [Widget.ctor, hs, make_unique_ok, make_unique_oom, State.built]

theorem Widget.ctorA_eq {st : State} {self : ObjId} (oom : Bool)
    (hs : st.objs self = none) :
    Widget.ctorA oom self st =
      if oom then .threw st else .ok (st.built self Impl.valueInit) := by
  cases oom <;> simp [Widget.ctorA, hs, make_unique_ok, make_unique_oom, State.built]

theorem Widget.copyCtor_eq {st : State} {self rhs : ObjId} {src : Impl} (oom : Bool)
    (hs : st.objs self = none) (hr : deref st rhs = some src) :
    Widget.copyCtor oom self rhs st =
      if oom then .threw st else .ok (st.built self (Impl.copy src)) := by
  cases oom <;> simp [Widget.copyCtor, hs, hr, make_unique_ok, make_unique_oom, State.built]

theorem Widget.moveCtor_eq {st : State} {self rhs : ObjId} {w : Widget}
    (hs : st.objs self = none) (hr : st.objs rhs = some w) :
    Widget.moveCtor self rhs st =
      .ok ((st.setObj rhs (some { pimpl_ := none })).setObj self (some { pimpl_ := w.pimpl_ })) := by
  simp [Widget.moveCtor, hs, release_eq hr]

theorem WF_built {st : State} {self : ObjId} (v : Impl) (h : WF st)
    (hs : st.objs self = none) : WF (st.built self v) :=
  WF_adopt (WFt_make_unique h (make_unique_ok v st)) hs

theorem live_push {h : Heap} {p : Addr} (v : Impl) (hp : h.cells p ≠ none) :
    (h.push v).cells p ≠ none := by
  unfold Heap.push
  by_cases e : p = h.next <;> simp [e, hp]

theorem Widget.copyAssign_eq {st : State} {self rhs : ObjId} {w : Widget} {src : Impl}
    (oom : Bool) (h : WF st) (hs : st.objs self = some w) (hr : deref st rhs = some src) :
    Widget.copyAssign oom self rhs st =
      if oom then .threw st
      else .ok (State.stored { st with heap := st.heap.push (Impl.copy src) } self
        (some st.heap.next) w.pimpl_) := by
  cases oom
  · have hr1 := reset_eq { st with heap := st.heap.push (Impl.copy src) }
      (some st.heap.next) hs (by
        intro old ho
        have : owns st self old := by
          unfold owns; rw [hs, ← ho]
        exact live_push _ (h.owned_live self old this))
    simp [Widget.copyAssign, hs, hr, make_unique_ok, hr1, State.stored]
  · simp [Widget.copyAssign, hs, hr, make_unique_oom]

theorem Widget.moveAssign_eq {st : State} {self rhs : ObjId} {w w1 : Widget}
    (h : WF st) (hs : st.objs self = some w) (hr : st.objs rhs = some w1) :
    Widget.moveAssign self rhs st =
      .ok (State.stored (st.setObj rhs (some { pimpl_ := none })) self w1.pimpl_
        (if self = rhs then none else w.pimpl_)) := by
  have hs1 : (st.setObj rhs (some { pimpl_ := none })).objs self =
      some { pimpl_ := if self = rhs then none else w.pimpl_ } := by
    by_cases e : self = rhs <;> simp [State.setObj, e, hs]
  have hr1 := reset_eq (st.setObj rhs (some { pimpl_ := none })) w1.pimpl_ hs1 (by
    intro old ho
    by_cases e : self = rhs
    · simp [e] at ho
    · simp only [e, if_false] at ho
      have : owns st self old := by
        unfold owns; rw [hs, ← ho]
      exact h.owned_live self old this)
  simp [Widget.moveAssign, hs, release_eq hr, hr1, State.stored]

theorem Widget.dtor_eq {st : State} {self : ObjId} {w : Widget}
    (h : WF st) (hs : st.objs self = some w) :
    Widget.dtor self st = .ok (st.ended self w.pimpl_) := by
  unfold Widget.dtor
  simp only [hs]
  cases hw : w.pimpl_ with
  | none => rfl
  | some old =>
    have : owns st self old := by
      unfold owns; rw [hs, ← hw]
    have hd := Heap.delete_live (h.owned_live self old this)
    simp only [hd]
    rfl

theorem Widget.PrintInfo_eq {st : State} {self : ObjId} {impl : Impl}
    (hd : deref st self = some impl) :
    Widget.PrintInfo self st = .ok (st.printed impl) := by
  simp [Widget.PrintInfo, hd, State.printed]

theorem deref_live_obj {st : State} {v : ObjId} {src : Impl} (h : deref st v = some src) :
    ∃ p, owns st v p ∧ st.heap.cells p = some src := by
  unfold deref at h
  cases hv : st.objs v with
  | none => simp [hv] at h
  | some w =>
    cases w with
    | mk q =>
      cases q with
      | none => simp [hv] at h
      | some p =>
        simp only [hv] at h
        exact ⟨p, hv, h⟩

theorem deref_of_owns {st : State} {v : ObjId} {p : Addr} (h : owns st v p) :
    deref st v = st.heap.cells p := by
  unfold owns at h
  simp [deref, h]

theorem step_ok_inv {st st1 : State} {oom : Bool} {op : Op} (h : WF st)
    (e : step oom op st = .ok st1) : StepSpec oom st op st1 := by
  cases op with
  | construct self i =>
    simp only [step] at e
    cases hs : st.objs self with
    | some w => simp [Widget.ctor, hs] at e
    | none =>
      rw [Widget.ctor_eq oom i hs] at e
      cases oom <;> simp at e
      exact ⟨hs, rfl, e.symm⟩
  | constructA self =>
    simp only [step] at e
    cases hs : st.objs self with
    | some w => simp [Widget.ctorA, hs] at e
    | none =>
      rw [Widget.ctorA_eq oom hs] at e
      cases oom <;> simp at e
      exact ⟨hs, rfl, e.symm⟩
  | copyConstruct self rhs =>
    simp only [step] at e
    cases hs : st.objs self with
    | some w => simp [Widget.copyCtor, hs] at e
    | none =>
      cases hr : deref st rhs with
      | none => simp [Widget.copyCtor, hs, hr] at e
      | some src =>
        rw [Widget.copyCtor_eq oom hs hr] at e
        cases oom <;> simp at e
        exact ⟨hs, rfl, src, hr, e.symm⟩
  | moveConstruct self rhs =>
    simp only [step] at e
    cases hs : st.objs self with
    | some w => simp [Widget.moveCtor, hs] at e
    | none =>
      cases hr : st.objs rhs with
      | none => simp [Widget.moveCtor, hs, release, hr] at e
      | some w =>
        rw [Widget.moveCtor_eq hs hr] at e
        simp at e
        exact ⟨hs, w, hr, e.symm⟩
  | copyAssign self rhs =>
    simp only [step] at e
    cases hs : st.objs self with
    | none => simp [Widget.copyAssign, hs] at e
    | some w =>
      cases hr : deref st rhs with
      | none => simp [Widget.copyAssign, hs, hr] at e
      | some src =>
        rw [Widget.copyAssign_eq oom h hs hr] at e
        cases oom <;> simp at e
        exact ⟨rfl, w, src, hs, hr, e.symm⟩
  | moveAssign self rhs =>
    simp only [step] at e
    cases hs : st.objs self with
    | none => simp [Widget.moveAssign, hs] at e
    | some w =>
      cases hr : st.objs rhs with
      | none => simp [Widget.moveAssign, hs, release, hr] at e
      | some w1 =>
        rw [Widget.moveAssign_eq h hs hr] at e
        simp at e
        exact ⟨w, w1, hs, hr, e.symm⟩
  | destroy self =>
    simp only [step] at e
    cases hs : st.objs self with
    | none => simp [Widget.dtor, hs] at e
    | some w =>
      rw [Widget.dtor_eq h hs] at e
      simp at e
      exact ⟨w, hs, e.symm⟩
  | printInfo self =>
    simp only [step] at e
    cases hd : deref st self with
    | none => simp [Widget.PrintInfo, hd] at e
    | some impl =>
      rw [Widget.PrintInfo_eq hd] at e
      simp at e
      exact ⟨impl, hd, e.symm⟩

/-- An exception leaves the state as it was before the call. -/
theorem step_threw_inv {st st1 : State} {oom : Bool} {op : Op}
    (e : step oom op st = .threw st1) : st1 = st := by
  cases op with
  | construct self i =>
    simp only [step, Widget.ctor] at e
    split at e
    · cases e
    · split at e
      · simp at e; exact e.symm
      · cases e
  | constructA self =>
    simp only [step, Widget.ctorA] at e
    split at e
    · cases e
    · split at e
      · simp at e; exact e.symm
      · cases e
  | copyConstruct self rhs =>
    simp only [step, Widget.copyCtor] at e
    split at e
    · cases e
    · split at e
      · cases e
      · split at e
        · simp at e; exact e.symm
        · cases e
  | moveConstruct self rhs =>
    simp only [step, Widget.moveCtor] at e
    split at e
    · cases e
    · split at e <;> cases e
  | copyAssign self rhs =>
    simp only [step, Widget.copyAssign] at e
    split at e
    · cases e
    · split at e
      · cases e
      · split at e
        · simp at e; exact e.symm
        · split at e <;> cases e
  | moveAssign self rhs =>
    simp only [step, Widget.moveAssign] at e
    split at e
    · cases e
    · split at e
      · cases e
      · split at e <;> cases e
  | destroy self =>
    simp only [step, Widget.dtor] at e
    split at e
    · cases e
    · split at e
      · cases e
      · split at e <;> cases e
  | printInfo self =>
    simp only [step, Widget.PrintInfo] at e
    split at e <;> cases e

/-- Every operation that returns preserves exclusive ownership. -/
theorem WF_step_ok {st st1 : State} {oom : Bool} {op : Op} (h : WF st)
    (e : step oom op st = .ok st1) : WF st1 := by
  have hs := step_ok_inv h e
  cases op with
  | construct self i =>
    obtain ⟨h1, _, rfl⟩ := hs
    exact WF_built _ h h1
  | constructA self =>
    obtain ⟨h1, _, rfl⟩ := hs
    exact WF_built _ h h1
  | copyConstruct self rhs =>
    obtain ⟨h1, _, src, _, rfl⟩ := hs
    exact WF_built _ h h1
  | moveConstruct self rhs =>
    obtain ⟨h1, w, h2, rfl⟩ := hs
    refine WF_adopt (WFt_release h h2) ?_
    by_cases e1 : self = rhs
    · rw [e1, h2] at h1; cases h1
    · simp [State.setObj, e1, h1]
  | copyAssign self rhs =>
    obtain ⟨_, w, src, h1, _, rfl⟩ := hs
    exact WF_store (WFt_make_unique h (make_unique_ok _ st)) h1
  | moveAssign self rhs =>
    obtain ⟨w, w1, h1, h2, rfl⟩ := hs
    have hs1 : (st.setObj rhs (some { pimpl_ := none })).objs self =
        some { pimpl_ := if self = rhs then none else w.pimpl_ } := by
      by_cases e : self = rhs <;> simp [State.setObj, e, h1]
    exact WF_store (WFt_release h h2) hs1
  | destroy self =>
    obtain ⟨w, h1, rfl⟩ := hs
    exact WF_end h h1
  | printInfo self =>
    obtain ⟨impl, _, rfl⟩ := hs
    exact ⟨h.owned_live, h.exclusive, h.no_leak, h.live_lt, h.freed_nodup, h.freed_dead,
      h.accounted⟩

theorem WF_of_reachable {st : State} (h : Reachable st) : WF st := by
  induction h with
  | init => exact WF_init
  | ok oom op _ e ih => exact WF_step_ok ih e
  | threw oom op _ e ih => rw [step_threw_inv e]; exact ih

/-! ## The demonstration states are reachable -/

theorem demo1_run : run [(false, .construct 0 42)] State.init = some demo1 := rfl

theorem demo2_run :
    run [(false, .construct 0 42), (false, .copyConstruct 1 0)] State.init = some demo2 := rfl

theorem demo3_run :
    run [(false, .construct 0 42), (false, .moveConstruct 1 0)] State.init = some demo3 := rfl

theorem reachable_of_run {ops : List (Bool × Op)} {st st1 : State} (h : Reachable st)
    (e : run ops st = some st1) : Reachable st1 := by
  induction ops generalizing st with
  | nil =>
    simp only [run, Option.some.injEq] at e
    exact e ▸ h
  | cons o rest ih =>
    obtain ⟨oom, op⟩ := o
    simp only [run] at e
    cases hs : step oom op st with
    | ok s1 =>
      rw [hs] at e
      exact ih (Reachable.ok oom op h hs) e
    | threw s1 =>
      rw [hs] at e
      exact ih (Reachable.threw oom op h hs) e
    | undefined =>
      rw [hs] at e
      cases e

theorem demo1_reachable : Reachable demo1 := reachable_of_run Reachable.init demo1_run

theorem demo2_reachable : Reachable demo2 := reachable_of_run Reachable.init demo2_run

theorem demo3_reachable : Reachable demo3 := reachable_of_run Reachable.init demo3_run

/-! ## Construction -/

/-- C1: for every integer `i`, `Widget(i)` (where the allocation succeeds) yields a live
object that owns an implementation whose `GetInfo()` returns `i`; constructing with the
default argument yields an object whose `GetInfo()` returns `0`; and the `Widget()` of
`Item22_pimpl.cpp` yields an object owning an implementation whose counter is `0`.  Where
the allocation fails the constructor leaves by the exception and nothing has changed. -/
theorem C1_construct_getInfo (st : State) (self : ObjId) (i : Int)
    (hs : st.objs self = none) :
    (∃ st1 p, Widget.ctor false self i st = .ok st1 ∧ owns st1 self p ∧
        st1.heap.cells p = some (Impl.ctor i) ∧ getInfo st1 self = some i) ∧
    (∃ st1 p, Widget.ctor false self Widget.defaultArg st = .ok st1 ∧ owns st1 self p ∧
        getInfo st1 self = some 0) ∧
    (∃ st1 p impl, Widget.ctorA false self st = .ok st1 ∧ owns st1 self p ∧
        st1.heap.cells p = some impl ∧ impl.GetInfo = 0) ∧
    Widget.ctor true self i st = .threw st := by
  have key : ∀ v : Impl, owns (st.built self v) self st.heap.next ∧
      (st.built self v).heap.cells st.heap.next = some v ∧
      getInfo (st.built self v) self = some v.GetInfo := by
    intro v
    refine ⟨?_, ?_, ?_⟩ <;>
      simp [owns, getInfo, deref, State.built, State.setObj, Heap.push]
  have e1 : ∀ j, Widget.ctor false self j st = .ok (st.built self (Impl.ctor j)) := by
    intro j; rw [Widget.ctor_eq false j hs]; rfl
  have e2 : Widget.ctorA false self st = .ok (st.built self Impl.valueInit) := by
    rw [Widget.ctorA_eq false hs]; rfl
  refine ⟨⟨_, _, e1 i, (key _).1, (key _).2.1, (key _).2.2⟩,
    ⟨_, _, e1 Widget.defaultArg, (key _).1, (key _).2.2⟩,
    ⟨_, _, _, e2, (key _).1, (key _).2.1, rfl⟩, ?_⟩
  rw [Widget.ctor_eq true i hs]; rfl

/-- Witness of C1: `Widget w0(42);` at the start of a program. -/
theorem C1_construct_getInfo_witness :
    State.init.objs 0 = none ∧
    (∃ st1 p, Widget.ctor false 0 42 State.init = .ok st1 ∧ owns st1 0 p ∧
        st1.heap.cells p = some (Impl.ctor 42) ∧ getInfo st1 0 = some 42) :=
  ⟨rfl, (C1_construct_getInfo State.init 0 42 rfl).1⟩

/-! ## Copy construction and move construction -/

theorem ne_of_dead_of_live {st : State} {u v : ObjId} {w : Widget}
    (hu : st.objs u = none) (hv : st.objs v = some w) : v ≠ u := by
  rintro rfl
  rw [hu] at hv
  cases hv

theorem lt_next_of_owns {st : State} {v : ObjId} {p : Addr} (h : WF st) (ho : owns st v p) :
    p < st.heap.next :=
  h.live_lt p (h.owned_live v p ho)

/-- C2: copy-constructing `self` from an object `rhs` that owns an implementation (the
allocation succeeding) yields a live `self` owning a new implementation, at another
address, whose name, data and counter equal those of `rhs`; so `GetInfo()` agrees; and
`rhs` still owns the same, unchanged implementation.  Where the allocation fails the
constructor leaves by the exception and nothing has changed. -/
theorem C2_copy_construct (st : State) (self rhs : ObjId) (p : Addr) (src : Impl)
    (h : WF st) (hs : st.objs self = none) (ho : owns st rhs p)
    (hc : st.heap.cells p = some src) :
    ∃ st1 q c, Widget.copyCtor false self rhs st = .ok st1 ∧
      owns st1 self q ∧ q ≠ p ∧ st1.heap.cells q = some c ∧
      c.name_ = src.name_ ∧ c.data_ = src.data_ ∧ c.i_ = src.i_ ∧
      getInfo st1 self = getInfo st rhs ∧
      st1.objs rhs = st.objs rhs ∧ owns st1 rhs p ∧ st1.heap.cells p = some src ∧
      getInfo st1 rhs = getInfo st rhs ∧
      Widget.copyCtor true self rhs st = .threw st := by
  have hd : deref st rhs = some src := by rw [deref_of_owns ho, hc]
  have hlt : p < st.heap.next := lt_next_of_owns h ho
  have hpn : p ≠ st.heap.next := Nat.ne_of_lt hlt
  have hrs : rhs ≠ self := ne_of_dead_of_live hs ho
  have e : Widget.copyCtor false self rhs st = .ok (st.built self (Impl.copy src)) := by
    rw [Widget.copyCtor_eq false hs hd]; rfl
  have o1 : owns (st.built self (Impl.copy src)) self st.heap.next := by
    simp [owns, State.built, State.setObj]
  have o2 : owns (st.built self (Impl.copy src)) rhs p := by
    unfold owns at ho
    simp [owns, State.built, State.setObj, hrs, ho]
  have c1 : (st.built self (Impl.copy src)).heap.cells st.heap.next = some (Impl.copy src) := by
    simp [State.built, State.setObj, Heap.push]
  have c2 : (st.built self (Impl.copy src)).heap.cells p = some src := by
    simp [State.built, State.setObj, Heap.push, hpn, hc]
  have g0 : getInfo st rhs = some src.i_ := by
    simp [getInfo, hd, Impl.GetInfo]
  have g1 : getInfo (st.built self (Impl.copy src)) self = some src.i_ := by
    rw [getInfo, deref_of_owns o1, c1]; rfl
  have g2 : getInfo (st.built self (Impl.copy src)) rhs = some src.i_ := by
    rw [getInfo, deref_of_owns o2, c2]; rfl
  refine ⟨_, st.heap.next, Impl.copy src, e, o1, hpn.symm, c1, rfl, rfl, rfl, ?_, ?_, o2, c2,
    ?_, ?_⟩
  · rw [g1, g0]
  · unfold owns at ho o2
    rw [o2, ho]
  · rw [g2, g0]
  · rw [Widget.copyCtor_eq true hs hd]; rfl

/-- Witness of C2: `Widget w1(w0);` after `Widget w0(42);`. -/
theorem C2_copy_construct_witness :
    ∃ st1 q c, Widget.copyCtor false 1 0 demo1 = .ok st1 ∧
      owns st1 1 q ∧ q ≠ 0 ∧ st1.heap.cells q = some c ∧
      c.name_ = (Impl.ctor 42).name_ ∧ c.data_ = (Impl.ctor 42).data_ ∧
      c.i_ = (Impl.ctor 42).i_ ∧
      getInfo st1 1 = getInfo demo1 0 ∧
      st1.objs 0 = demo1.objs 0 ∧ owns st1 0 0 ∧ st1.heap.cells 0 = some (Impl.ctor 42) ∧
      getInfo st1 0 = getInfo demo1 0 ∧
      Widget.copyCtor true 1 0 demo1 = .threw demo1 :=
  C2_copy_construct demo1 1 0 0 (Impl.ctor 42) (WF_of_reachable demo1_reachable) rfl rfl rfl

/-- C4: move-constructing `self` from an object `rhs` that owns an implementation yields a
live `self` owning exactly the implementation `rhs` owned (the free store is untouched, so
`GetInfo()` is what it was for `rhs`), and leaves `rhs` live and owning nothing. -/
theorem C4_move_construct (st : State) (self rhs : ObjId) (p : Addr)
    (hs : st.objs self = none) (ho : owns st rhs p) :
    ∃ st1, Widget.moveCtor self rhs st = .ok st1 ∧ owns st1 self p ∧
      st1.heap = st.heap ∧ deref st1 self = deref st rhs ∧
      getInfo st1 self = getInfo st rhs ∧ isEmpty st1 rhs := by
  have hrs : rhs ≠ self := ne_of_dead_of_live hs ho
  have e := Widget.moveCtor_eq hs ho
  refine ⟨_, e, ?_, rfl, ?_, ?_, ?_⟩
  · simp [owns, State.setObj]
  · unfold owns at ho
    simp [deref, State.setObj, ho]
  · unfold owns at ho
    simp [getInfo, deref, State.setObj, ho]
  · simp [isEmpty, State.setObj, hrs]

/-- Witness of C4: `Widget w1(std::move(w0));` after `Widget w0(42);`. -/
theorem C4_move_construct_witness :
    ∃ st1, Widget.moveCtor 1 0 demo1 = .ok st1 ∧ owns st1 1 0 ∧
      st1.heap = demo1.heap ∧ deref st1 1 = deref demo1 0 ∧
      getInfo st1 1 = getInfo demo1 0 ∧ isEmpty st1 0 :=
  C4_move_construct demo1 1 0 0 rfl rfl

/-! ## Move assignment -/

theorem owns_of_objs {st : State} {v : ObjId} {w : Widget} {p : Addr}
    (hv : st.objs v = some w) (hp : w.pimpl_ = some p) : owns st v p := by
  unfold owns
  rw [hv, ← hp]

theorem setObj_self (st : State) (v : ObjId) (w : Widget) (hv : st.objs v = some w) :
    (st.setObj v (some { pimpl_ := none })).setObj v (some { pimpl_ := w.pimpl_ }) = st := by
  cases st with
  | mk objs heap cout =>
    simp only [State.setObj, State.mk.injEq, and_true]
    funext u
    by_cases e : u = v
    · subst e
      simp only [if_true]
      exact hv.symm
    · simp [e]

/-- C5 as stated fails when target and source are the same object: after
`w0 = std::move(w0)` the object still owns its implementation, which is still live, and
nothing has been released. -/
theorem C5_self_move_counterexample :
    owns demo1 0 0 ∧
    ∃ st1, Widget.moveAssign 0 0 demo1 = .ok st1 ∧ owns st1 0 0 ∧ ¬ isEmpty st1 0 ∧
      live st1 0 ∧ st1.heap.freed = [] := by
  refine ⟨rfl, _, rfl, rfl, ?_, ?_, rfl⟩
  · decide
  · decide

/-- C5, amended: for live objects `self` and `rhs`, `self = std::move(rhs)` returns, and
`self` then holds what `rhs` held, with the transferred implementation untouched.  When
the two are different objects, `rhs` is left owning nothing and the implementation `self`
owned before (if any) has been deleted, and nothing else; when they are the same object,
the state is exactly what it was. -/
theorem C5_move_assign (st : State) (self rhs : ObjId) (w w1 : Widget) (h : WF st)
    (hs : st.objs self = some w) (hr : st.objs rhs = some w1) :
    ∃ st1, Widget.moveAssign self rhs st = .ok st1 ∧
      st1.objs self = some w1 ∧
      (∀ p, w1.pimpl_ = some p → st1.heap.cells p = st.heap.cells p) ∧
      (self ≠ rhs → isEmpty st1 rhs ∧ st1.heap = st.heap.dispose w.pimpl_ ∧
        ∀ old, w.pimpl_ = some old →
          ¬ live st1 old ∧ st1.heap.freed = st.heap.freed ++ [old]) ∧
      (self = rhs → st1 = st) := by
  refine ⟨_, Widget.moveAssign_eq h hs hr, ?_, ?_, ?_, ?_⟩
  · simp [State.stored, State.setObj]
  · intro p hp
    by_cases e : self = rhs
    · simp [State.stored, State.setObj, e, Heap.dispose]
    · cases hw : w.pimpl_ with
      | none => simp [State.stored, State.setObj, e, Heap.dispose, hw]
      | some old =>
        have hne : p ≠ old := by
          rintro rfl
          exact e (h.exclusive self rhs p (owns_of_objs hs hw) (owns_of_objs hr hp))
        simp [State.stored, State.setObj, e, Heap.dispose, hw, Heap.remove, hne]
  · intro e
    have e1 : rhs ≠ self := fun x => e x.symm
    refine ⟨?_, ?_, ?_⟩
    · simp [isEmpty, State.stored, State.setObj, e1]
    · simp [State.stored, State.setObj, e]
    · intro old ho
      simp [State.stored, State.setObj, e, Heap.dispose, ho, Heap.remove, live]
  · intro e
    subst e
    rw [hs] at hr
    cases hr
    simp only [State.stored, if_true, Heap.dispose]
    have := setObj_self st self w hs
    rw [this]
    rfl

/-- Witness of C5: `w1 = std::move(w0);` after `Widget w0(42); Widget w1(w0);`. -/
theorem C5_move_assign_witness :
    ∃ st1, Widget.moveAssign 1 0 demo2 = .ok st1 ∧
      st1.objs 1 = some { pimpl_ := some 0 } ∧
      (∀ p, (some 0 : Option Addr) = some p → st1.heap.cells p = demo2.heap.cells p) ∧
      ((1 : ObjId) ≠ 0 → isEmpty st1 0 ∧ st1.heap = demo2.heap.dispose (some 1) ∧
        ∀ old, (some 1 : Option Addr) = some old →
          ¬ live st1 old ∧ st1.heap.freed = demo2.heap.freed ++ [old]) ∧
      ((1 : ObjId) = 0 → st1 = demo2) :=
  C5_move_assign demo2 1 0 { pimpl_ := some 1 } { pimpl_ := some 0 }
    (WF_of_reachable demo2_reachable) rfl rfl

/-! ## Copy assignment -/

/-- C6: copy assignment between live objects that both own an implementation has exactly
two outcomes.  If the allocation of the copy succeeds, the call returns, `self` owns a
newly allocated implementation equal to the source's, and the source's implementation
value is what it was (for a source other than `self`, the very same object at the same
address).  If the allocation fails, the call leaves by the exception and the state is
exactly the state before the call. -/
theorem C6_copy_assign_atomic (st : State) (oom : Bool) (self rhs : ObjId) (pt ps : Addr)
    (src : Impl) (h : WF st) (ht : owns st self pt) (hr : owns st rhs ps)
    (hc : st.heap.cells ps = some src) :
    (oom = false ∧ ∃ st1 q, Widget.copyAssign oom self rhs st = .ok st1 ∧
        owns st1 self q ∧ st.heap.cells q = none ∧ q ≠ ps ∧
        st1.heap.cells q = some src ∧
        deref st1 rhs = deref st rhs ∧ getInfo st1 rhs = getInfo st rhs ∧
        (self ≠ rhs → owns st1 rhs ps ∧ st1.heap.cells ps = some src)) ∨
    (oom = true ∧ Widget.copyAssign oom self rhs st = .threw st) := by
  have hd : deref st rhs = some src := by rw [deref_of_owns hr, hc]
  have e := Widget.copyAssign_eq oom h ht hd
  cases oom with
  | true => exact Or.inr ⟨rfl, e⟩
  | false =>
    left
    simp only [Bool.false_eq_true, if_false] at e
    have hps : ps ≠ st.heap.next := Nat.ne_of_lt (lt_next_of_owns h hr)
    have hpt : pt ≠ st.heap.next := Nat.ne_of_lt (lt_next_of_owns h ht)
    have hfresh : st.heap.cells st.heap.next = none := by
      by_contra hx
      exact Nat.lt_irrefl _ (h.live_lt _ hx)
    have o1 : owns (State.stored { st with heap := st.heap.push (Impl.copy src) } self
        (some st.heap.next) (some pt)) self st.heap.next := by
      simp [owns, State.stored, State.setObj]
    have c1 : (State.stored { st with heap := st.heap.push (Impl.copy src) } self
        (some st.heap.next) (some pt)).heap.cells st.heap.next = some src := by
      simp [State.stored, State.setObj, Heap.dispose, Heap.remove, Heap.push, hpt.symm,
        Impl.copy]
    have d1 : deref (State.stored { st with heap := st.heap.push (Impl.copy src) } self
        (some st.heap.next) (some pt)) rhs = some src := by
      by_cases hsr : rhs = self
      · subst hsr
        rw [deref_of_owns o1, c1]
      · have o2 : owns (State.stored { st with heap := st.heap.push (Impl.copy src) } self
            (some st.heap.next) (some pt)) rhs ps := by
          unfold owns at hr
          simp [owns, State.stored, State.setObj, hsr, hr]
        have hne : ps ≠ pt := by
          rintro rfl
          exact hsr (h.exclusive rhs self ps hr ht)
        rw [deref_of_owns o2]
        simp [State.stored, State.setObj, Heap.dispose, Heap.remove, Heap.push, hne, hps, hc]
    refine ⟨rfl, _, st.heap.next, e, o1, hfresh, hps.symm, c1, ?_, ?_, ?_⟩
    · rw [d1, hd]
    · rw [getInfo, getInfo, d1, hd]
    · intro hsr
      have hrs : rhs ≠ self := fun x => hsr x.symm
      have hne : ps ≠ pt := by
        rintro rfl
        exact hrs (h.exclusive rhs self ps hr ht)
      refine ⟨?_, ?_⟩
      · unfold owns at hr
        simp [owns, State.stored, State.setObj, hrs, hr]
      · simp [State.stored, State.setObj, Heap.dispose, Heap.remove, Heap.push, hne, hps, hc]

/-- Witness of C6: `w1 = w0;` after `Widget w0(42); Widget w1(w0);`, the allocation
failing. -/
theorem C6_copy_assign_atomic_witness :
    (true = false ∧ ∃ st1 q, Widget.copyAssign true 1 0 demo2 = .ok st1 ∧
        owns st1 1 q ∧ demo2.heap.cells q = none ∧ q ≠ 0 ∧
        st1.heap.cells q = some (Impl.ctor 42) ∧
        deref st1 0 = deref demo2 0 ∧ getInfo st1 0 = getInfo demo2 0 ∧
        ((1 : ObjId) ≠ 0 → owns st1 0 0 ∧ st1.heap.cells 0 = some (Impl.ctor 42))) ∨
    (true = true ∧ Widget.copyAssign true 1 0 demo2 = .threw demo2) :=
  C6_copy_assign_atomic demo2 true 1 0 1 0 (Impl.ctor 42)
    (WF_of_reachable demo2_reachable) rfl rfl rfl

/-! ## Move operations never fail -/

/-- C7: for every live source `rhs`, whether it owns an implementation or is empty, and
whatever the allocator would do (`oom`), move construction of a new object and move
assignment to any live target return: no exception, no undefined behaviour.  Neither
allocates (the move constructor leaves the free store untouched; the move assignment hands
out no address and makes no dead address live), and when the source is empty the target
is left empty. -/
theorem C7_moves_never_fail (st : State) (oom : Bool) (rhs : ObjId) (w1 : Widget)
    (h : WF st) (hr : st.objs rhs = some w1) :
    (∀ self, st.objs self = none →
      ∃ st1, step oom (.moveConstruct self rhs) st = .ok st1 ∧ st1.heap = st.heap ∧
        (w1.pimpl_ = none → isEmpty st1 self)) ∧
    (∀ self w, st.objs self = some w →
      ∃ st1, step oom (.moveAssign self rhs) st = .ok st1 ∧
        st1.heap.next = st.heap.next ∧
        (∀ q, st.heap.cells q = none → st1.heap.cells q = none) ∧
        (w1.pimpl_ = none → isEmpty st1 self)) := by
  constructor
  · intro self hs
    refine ⟨_, Widget.moveCtor_eq hs hr, rfl, ?_⟩
    intro he
    simp [isEmpty, State.setObj, he]
  · intro self w hs
    refine ⟨_, Widget.moveAssign_eq h hs hr, ?_, ?_, ?_⟩
    · simp only [State.stored, Heap.dispose]
      split <;> rfl
    · intro q hq
      simp only [State.stored, Heap.dispose]
      split
      · exact hq
      · simp only [Heap.remove]
        split
        · rfl
        · exact hq
    · intro he
      simp [isEmpty, State.stored, State.setObj, he]

/-- Witness of C7: moving from the moved-from `w0` after
`Widget w0(42); Widget w1(std::move(w0));`. -/
theorem C7_moves_never_fail_witness :
    (∀ self, demo3.objs self = none →
      ∃ st1, step true (.moveConstruct self 0) demo3 = .ok st1 ∧ st1.heap = demo3.heap ∧
        ((none : Option Addr) = none → isEmpty st1 self)) ∧
    (∀ self w, demo3.objs self = some w →
      ∃ st1, step true (.moveAssign self 0) demo3 = .ok st1 ∧
        st1.heap.next = demo3.heap.next ∧
        (∀ q, demo3.heap.cells q = none → st1.heap.cells q = none) ∧
        ((none : Option Addr) = none → isEmpty st1 self)) :=
  C7_moves_never_fail demo3 true 0 { pimpl_ := none } (WF_of_reachable demo3_reachable) rfl

/-! ## `PrintInfo` -/

/-- C10: on a live object, `PrintInfo` (and the expression `pimpl_->GetInfo()`) is defined
exactly when the object owns an implementation.  On an object that owns one it returns,
having appended the stored counter and then the end-of-line to the output, with the
objects and the free store as they were; on an empty (moved-from) object it is
undefined behaviour. -/
theorem C10_printInfo (st : State) (v : ObjId) (w : Widget) (h : WF st)
    (hv : st.objs v = some w) :
    (Widget.PrintInfo v st ≠ .undefined ↔ ∃ p, owns st v p) ∧
    (getInfo st v ≠ none ↔ ∃ p, owns st v p) ∧
    (∀ p, owns st v p → ∃ impl, st.heap.cells p = some impl ∧
      getInfo st v = some impl.i_ ∧
      Widget.PrintInfo v st =
        .ok { objs := st.objs, heap := st.heap,
              cout := st.cout ++ [Token.int impl.i_, Token.endl] }) ∧
    (isEmpty st v → Widget.PrintInfo v st = .undefined ∧ getInfo st v = none) := by
  have hown : ∀ p, owns st v p → ∃ impl, st.heap.cells p = some impl ∧
      getInfo st v = some impl.i_ ∧
      Widget.PrintInfo v st =
        .ok { objs := st.objs, heap := st.heap,
              cout := st.cout ++ [Token.int impl.i_, Token.endl] } := by
    intro p hp
    obtain ⟨impl, hi⟩ := Option.ne_none_iff_exists'.1 (h.owned_live v p hp)
    have hd : deref st v = some impl := by rw [deref_of_owns hp, hi]
    refine ⟨impl, hi, ?_, ?_⟩
    · rw [getInfo, hd]; rfl
    · rw [Widget.PrintInfo_eq hd]; rfl
  have hemp : isEmpty st v → Widget.PrintInfo v st = .undefined ∧ getInfo st v = none := by
    intro he
    unfold isEmpty at he
    simp [Widget.PrintInfo, getInfo, deref, he]
  have hcase : (∃ p, owns st v p) ∨ isEmpty st v := by
    cases w with
    | mk q =>
      cases q with
      | none => exact Or.inr hv
      | some p => exact Or.inl ⟨p, hv⟩
  refine ⟨?_, ?_, hown, hemp⟩
  · constructor
    · intro hne
      rcases hcase with h1 | h1
      · exact h1
      · exact absurd (hemp h1).1 hne
    · rintro ⟨p, hp⟩
      obtain ⟨impl, _, _, e⟩ := hown p hp
      rw [e]
      intro hx
      cases hx
  · constructor
    · intro hne
      rcases hcase with h1 | h1
      · exact h1
      · exact absurd (hemp h1).2 hne
    · rintro ⟨p, hp⟩
      obtain ⟨impl, _, e, _⟩ := hown p hp
      rw [e]
      intro hx
      cases hx

/-- Witness of C10: `w0.PrintInfo();` after `Widget w0(42);`. -/
theorem C10_printInfo_witness :
    (Widget.PrintInfo 0 demo1 ≠ .undefined ↔ ∃ p, owns demo1 0 p) ∧
    (getInfo demo1 0 ≠ none ↔ ∃ p, owns demo1 0 p) ∧
    (∀ p, owns demo1 0 p → ∃ impl, demo1.heap.cells p = some impl ∧
      getInfo demo1 0 = some impl.i_ ∧
      Widget.PrintInfo 0 demo1 =
        .ok { objs := demo1.objs, heap := demo1.heap,
              cout := demo1.cout ++ [Token.int impl.i_, Token.endl] }) ∧
    (isEmpty demo1 0 → Widget.PrintInfo 0 demo1 = .undefined ∧ getInfo demo1 0 = none) :=
  C10_printInfo demo1 0 { pimpl_ := some 0 } (WF_of_reachable demo1_reachable) rfl

/-! ## Independence of a copy -/

theorem dispose_cells_of_ne (h : Heap) (t : Option Addr) (p : Addr) (hne : t ≠ some p) :
    (h.dispose t).cells p = h.cells p := by
  cases t with
  | none => rfl
  | some old =>
    have : p ≠ old := by
      rintro rfl
      exact hne rfl
    simp [Heap.dispose, Heap.remove, this]

theorem push_cells_of_lt (h : Heap) (v : Impl) (p : Addr) (hp : p < h.next) :
    (h.push v).cells p = h.cells p := by
  simp [Heap.push, Nat.ne_of_lt hp]

/-- An operation that does not store into `y.pimpl_` leaves `y` and what it points to
alone. -/
theorem frame_step {st st1 : State} {oom : Bool} {op : Op} {y : ObjId} (h : WF st)
    (e : step oom op st = .ok st1) (hy : y ∉ op.writes) :
    st1.objs y = st.objs y ∧ ∀ p, owns st y p → st1.heap.cells p = st.heap.cells p := by
  have hs := step_ok_inv h e
  have hother : ∀ (self : ObjId) (w : Widget) (p : Addr), y ≠ self → st.objs self = some w →
      owns st y p → w.pimpl_ ≠ some p := by
    intro self w p hne hw hp hx
    exact hne (h.exclusive y self p hp (owns_of_objs hw hx))
  cases op with
  | construct self i =>
    obtain ⟨_, _, rfl⟩ := hs
    simp only [Op.writes, List.mem_singleton] at hy
    refine ⟨by simp [State.built, State.setObj, hy], fun p hp => ?_⟩
    exact push_cells_of_lt _ _ _ (lt_next_of_owns h hp)
  | constructA self =>
    obtain ⟨_, _, rfl⟩ := hs
    simp only [Op.writes, List.mem_singleton] at hy
    refine ⟨by simp [State.built, State.setObj, hy], fun p hp => ?_⟩
    exact push_cells_of_lt _ _ _ (lt_next_of_owns h hp)
  | copyConstruct self rhs =>
    obtain ⟨_, _, src, _, rfl⟩ := hs
    simp only [Op.writes, List.mem_singleton] at hy
    refine ⟨by simp [State.built, State.setObj, hy], fun p hp => ?_⟩
    exact push_cells_of_lt _ _ _ (lt_next_of_owns h hp)
  | moveConstruct self rhs =>
    obtain ⟨_, w, _, rfl⟩ := hs
    simp only [Op.writes, List.mem_cons, List.mem_singleton, List.not_mem_nil, or_false,
      not_or] at hy
    exact ⟨by simp [State.setObj, hy.1, hy.2], fun p _ => rfl⟩
  | copyAssign self rhs =>
    obtain ⟨_, w, src, h1, _, rfl⟩ := hs
    simp only [Op.writes, List.mem_singleton] at hy
    refine ⟨by simp [State.stored, State.setObj, hy], fun p hp => ?_⟩
    show ((st.heap.push (Impl.copy src)).dispose w.pimpl_).cells p = st.heap.cells p
    rw [dispose_cells_of_ne _ _ _ (hother self w p hy h1 hp)]
    exact push_cells_of_lt _ _ _ (lt_next_of_owns h hp)
  | moveAssign self rhs =>
    obtain ⟨w, w1, h1, _, rfl⟩ := hs
    simp only [Op.writes, List.mem_cons, List.mem_singleton, List.not_mem_nil, or_false,
      not_or] at hy
    refine ⟨by simp [State.stored, State.setObj, hy.1, hy.2], fun p hp => ?_⟩
    show (st.heap.dispose (if self = rhs then none else w.pimpl_)).cells p = st.heap.cells p
    apply dispose_cells_of_ne
    split
    · simp
    · exact hother self w p hy.1 h1 hp
  | destroy self =>
    obtain ⟨w, h1, rfl⟩ := hs
    simp only [Op.writes, List.mem_singleton] at hy
    refine ⟨by simp [State.ended, State.setObj, hy], fun p hp => ?_⟩
    show (st.heap.dispose w.pimpl_).cells p = st.heap.cells p
    exact dispose_cells_of_ne _ _ _ (hother self w p hy h1 hp)
  | printInfo self =>
    obtain ⟨impl, _, rfl⟩ := hs
    exact ⟨rfl, fun p _ => rfl⟩

theorem deref_congr {st st1 : State} {y : ObjId} (ho : st1.objs y = st.objs y)
    (hc : ∀ p, owns st y p → st1.heap.cells p = st.heap.cells p) :
    deref st1 y = deref st y := by
  unfold deref
  rw [ho]
  cases hv : st.objs y with
  | none => rfl
  | some w =>
    cases w with
    | mk q =>
      cases q with
      | none => rfl
      | some p => exact hc p hv

theorem frame_run {ops : List (Bool × Op)} {st st1 : State} {y : ObjId} (h : WF st)
    (e : run ops st = some st1) (hy : ∀ o ∈ ops, y ∉ o.2.writes) :
    st1.objs y = st.objs y ∧ deref st1 y = deref st y := by
  induction ops generalizing st with
  | nil =>
    simp only [run, Option.some.injEq] at e
    subst e
    exact ⟨rfl, rfl⟩
  | cons o rest ih =>
    obtain ⟨oom, op⟩ := o
    have hy1 : y ∉ op.writes := hy (oom, op) (List.mem_cons_self _ _)
    have hy2 : ∀ o ∈ rest, y ∉ o.2.writes := fun o ho => hy o (List.mem_cons_of_mem _ ho)
    simp only [run] at e
    cases hs : step oom op st with
    | ok s1 =>
      rw [hs] at e
      have f := frame_step h hs hy1
      have r := ih (WF_step_ok h hs) e hy2
      exact ⟨r.1.trans f.1, r.2.trans (deref_congr f.1 f.2)⟩
    | threw s1 =>
      rw [hs] at e
      have := step_threw_inv hs
      subst this
      exact ih h e hy2
    | undefined =>
      rw [hs] at e
      cases e

/-- What a copy construction or copy assignment of `b` from another object `a` made. -/
theorem copy_made {st st1 : State} {oom : Bool} {mk : Op} {a b : ObjId} (h : WF st)
    (hab : a ≠ b) (hmk : mk = .copyConstruct b a ∨ mk = .copyAssign b a)
    (e : step oom mk st = .ok st1) :
    ∃ pa pb src, owns st a pa ∧ st.heap.cells pa = some src ∧ owns st1 a pa ∧
      owns st1 b pb ∧ pa ≠ pb ∧ st1.heap.cells pa = some src ∧
      st1.heap.cells pb = some src := by
  have hwr : a ∉ mk.writes := by
    rcases hmk with rfl | rfl <;> simpa [Op.writes] using hab
  have f := frame_step h e hwr
  have hs := step_ok_inv h e
  have hsrc : ∃ src, deref st a = some src ∧ owns st1 b st.heap.next ∧
      st1.heap.cells st.heap.next = some src := by
    rcases hmk with rfl | rfl
    · obtain ⟨_, _, src, hd, rfl⟩ := hs
      refine ⟨src, hd, ?_, ?_⟩
      · simp [owns, State.built, State.setObj]
      · simp [State.built, State.setObj, Heap.push, Impl.copy]
    · obtain ⟨_, w, src, hw, hd, rfl⟩ := hs
      refine ⟨src, hd, ?_, ?_⟩
      · simp [owns, State.stored, State.setObj]
      · show ((st.heap.push (Impl.copy src)).dispose w.pimpl_).cells st.heap.next = some src
        rw [dispose_cells_of_ne]
        · simp [Heap.push, Impl.copy]
        · intro hx
          exact Nat.lt_irrefl _ (lt_next_of_owns h (owns_of_objs hw hx))
  obtain ⟨src, hd, hb, hcb⟩ := hsrc
  obtain ⟨pa, hpa, hca⟩ := deref_live_obj hd
  refine ⟨pa, st.heap.next, src, hpa, hca, ?_, hb, Nat.ne_of_lt (lt_next_of_owns h hpa), ?_,
    hcb⟩
  · unfold owns at hpa ⊢
    rw [f.1, hpa]
  · rw [f.2 pa hpa, hca]

/-- C3: let `b` be made a copy of another object `a` that owns an implementation, by copy
construction or by copy assignment.  Then `a` and `b` own different implementations with
equal contents, and for `y` either of the two: after any sequence of later operations none
of which stores into `y` (so: the other one being copy-assigned or move-assigned from a
third object, being moved from into a third object, being destroyed, in any number and
order), `y` still owns the same implementation, with the same contents and the same
`GetInfo()`. -/
theorem C3_deep_copy_independence (st st1 st2 : State) (oom : Bool) (mk : Op)
    (a b y : ObjId) (ops : List (Bool × Op)) (h : WF st) (hab : a ≠ b)
    (hmk : mk = .copyConstruct b a ∨ mk = .copyAssign b a)
    (e1 : step oom mk st = .ok st1) (hy : y = a ∨ y = b)
    (hops : ∀ o ∈ ops, y ∉ o.2.writes) (e2 : run ops st1 = some st2) :
    (∃ pa pb, owns st1 a pa ∧ owns st1 b pb ∧ pa ≠ pb ∧
      deref st1 a = deref st a ∧ deref st1 b = deref st a ∧ deref st a ≠ none) ∧
    st2.objs y = st1.objs y ∧ deref st2 y = deref st1 y ∧
    getInfo st2 y = getInfo st1 y ∧ getInfo st2 y = getInfo st a := by
  obtain ⟨pa, pb, src, ha, hca, ha1, hb1, hne, hca1, hcb1⟩ := copy_made h hab hmk e1
  have f := frame_run (WF_step_ok h e1) e2 hops
  have d0 : deref st a = some src := by rw [deref_of_owns ha, hca]
  have da : deref st1 a = some src := by rw [deref_of_owns ha1, hca1]
  have db : deref st1 b = some src := by rw [deref_of_owns hb1, hcb1]
  have dy : deref st1 y = some src := by
    rcases hy with rfl | rfl
    · exact da
    · exact db
  refine ⟨⟨pa, pb, ha1, hb1, hne, by rw [da, d0], by rw [db, d0], by rw [d0]; simp⟩,
    f.1, f.2, ?_, ?_⟩
  · rw [getInfo, getInfo, f.2]
  · rw [getInfo, getInfo, f.2, dy, d0]

/-- Witness of C3: `Widget w0(42); Widget w1(w0);` and then the end of the lifetime
of `w0`. -/
theorem C3_deep_copy_independence_witness :
    (∃ pa pb, owns demo2 0 pa ∧ owns demo2 1 pb ∧ pa ≠ pb ∧
      deref demo2 0 = deref demo1 0 ∧ deref demo2 1 = deref demo1 0 ∧
      deref demo1 0 ≠ none) ∧
    (demo2.ended 0 (some 0)).objs 1 = demo2.objs 1 ∧
    deref (demo2.ended 0 (some 0)) 1 = deref demo2 1 ∧
    getInfo (demo2.ended 0 (some 0)) 1 = getInfo demo2 1 ∧
    getInfo (demo2.ended 0 (some 0)) 1 = getInfo demo1 0 :=
  C3_deep_copy_independence demo1 demo2 (demo2.ended 0 (some 0)) false (.copyConstruct 1 0)
    0 1 1 [(false, .destroy 0)] (WF_of_reachable demo1_reachable) (by decide) (Or.inl rfl)
    rfl (Or.inr rfl) (by decide) rfl

/-! ## The validity invariant -/

theorem held_isSome_of_deref {st : State} {v : ObjId} {src : Impl}
    (h : deref st v = some src) : (held st v).isSome = true := by
  obtain ⟨p, hp, _⟩ := deref_live_obj h
  rw [owns_iff_held.1 hp]
  rfl

/-- The amended condition is a special case of the condition as worded. -/
theorem keptAsWorded_of_kept (h : List Event) (hk : kept h = true) : keptAsWorded h = true := by
  cases h with
  | nil => cases hk
  | cons e r =>
    cases e with
    | constructed => rfl
    | moveConstructed b => rfl
    | assigned b =>
      simp only [kept] at hk
      subst hk
      rfl
    | movedFrom => cases hk

/-- One step keeps the history in agreement with the state. -/
theorem status_step {st st1 : State} {g : Hist} {oom : Bool} {op : Op} (h : WF st)
    (hg : ∀ v, histStatus (g v) = status st v) (e : step oom op st = .ok st1) :
    ∀ v, histStatus (record st op g v) = status st1 v := by
  have hs := step_ok_inv h e
  intro v
  have hv := hg v
  cases op with
  | construct self i =>
    obtain ⟨_, _, rfl⟩ := hs
    by_cases e1 : v = self
    · simp [record, status, State.built, State.setObj, e1, histStatus, kept]
    · simpa [record, status, State.built, State.setObj, e1] using hv
  | constructA self =>
    obtain ⟨_, _, rfl⟩ := hs
    by_cases e1 : v = self
    · simp [record, status, State.built, State.setObj, e1, histStatus, kept]
    · simpa [record, status, State.built, State.setObj, e1] using hv
  | copyConstruct self rhs =>
    obtain ⟨_, _, src, _, rfl⟩ := hs
    by_cases e1 : v = self
    · simp [record, status, State.built, State.setObj, e1, histStatus, kept]
    · simpa [record, status, State.built, State.setObj, e1] using hv
  | moveConstruct self rhs =>
    obtain ⟨_, w, hw, rfl⟩ := hs
    by_cases e1 : v = self
    · simp [record, status, State.setObj, e1, histStatus, kept, held_of_objs hw]
    · by_cases e2 : v = rhs
      · subst e2
        simp [record, status, State.setObj, e1, histStatus, kept]
      · simpa [record, status, State.setObj, e1, e2] using hv
  | copyAssign self rhs =>
    obtain ⟨_, w, src, _, hd, rfl⟩ := hs
    by_cases e1 : v = self
    · simp [record, status, State.stored, State.setObj, e1, histStatus, kept,
        held_isSome_of_deref hd]
    · simpa [record, status, State.stored, State.setObj, e1] using hv
  | moveAssign self rhs =>
    obtain ⟨w, w1, _, hw, rfl⟩ := hs
    by_cases e1 : v = self
    · simp [record, status, State.stored, State.setObj, e1, histStatus, kept,
        held_of_objs hw]
    · by_cases e2 : v = rhs
      · subst e2
        simp [record, status, State.stored, State.setObj, e1, histStatus, kept]
      · simpa [record, status, State.stored, State.setObj, e1, e2] using hv
  | destroy self =>
    obtain ⟨w, _, rfl⟩ := hs
    by_cases e1 : v = self
    · simp [record, status, State.ended, State.setObj, e1, histStatus]
    · simpa [record, status, State.ended, State.setObj, e1] using hv
  | printInfo self =>
    obtain ⟨impl, _, rfl⟩ := hs
    simpa [record, status, State.printed] using hv

theorem status_run {ops : List (Bool × Op)} {st st1 : State} {g g1 : Hist} (h : WF st)
    (hg : ∀ v, histStatus (g v) = status st v) (e : runH ops st g = some (st1, g1)) :
    WF st1 ∧ ∀ v, histStatus (g1 v) = status st1 v := by
  induction ops generalizing st g with
  | nil =>
    simp only [runH, Option.some.injEq, Prod.mk.injEq] at e
    obtain ⟨rfl, rfl⟩ := e
    exact ⟨h, hg⟩
  | cons o rest ih =>
    obtain ⟨oom, op⟩ := o
    simp only [runH] at e
    cases hs : step oom op st with
    | ok s1 =>
      rw [hs] at e
      exact ih (WF_step_ok h hs) (status_step h hg hs) e
    | threw s1 =>
      rw [hs] at e
      have := step_threw_inv hs
      subst this
      exact ih h hg e
    | undefined =>
      rw [hs] at e
      cases e

/-- C8 as stated fails, in two ways.  After
`Widget w0(42); Widget w1(7); Widget w2(std::move(w0)); w1 = std::move(w0);
Widget w3(std::move(w0));`
the object `w1` was constructed by `Widget(7)`, has never been the source of a move, and
owns nothing, having been move-assigned from the empty `w0`; and the object `w3` has just
been constructed, has never been the source of a move, and owns nothing, having been
move-constructed from the empty `w0`. -/
theorem C8_move_from_empty_counterexample :
    ∃ st g, runH [(false, .construct 0 42), (false, .construct 1 7),
        (false, .moveConstruct 2 0), (false, .moveAssign 1 0),
        (false, .moveConstruct 3 0)] State.init (fun _ => []) = some (st, g) ∧
      g 1 = [.assigned false, .constructed] ∧ keptAsWorded (g 1) = true ∧ isEmpty st 1 ∧
      g 3 = [.moveConstructed false] ∧ keptAsWorded (g 3) = true ∧ isEmpty st 3 :=
  ⟨_, _, rfl, rfl, rfl, rfl, rfl, rfl, rfl⟩

/-- C8, amended: in every state reached from the start of a program by operations with
defined behaviour, an object is live exactly when it has a history; a live object that has
neither been the source of a move nor been assigned from an empty source since it was last
constructed (a move construction from an empty source not counting) or last assigned from
a source owning an implementation owns a live implementation; an object that was the
source of a move and has not been assigned to since (in `w = std::move(w)` the assignment
is the later event) owns nothing; and so does every other live object for which the
condition fails. -/
theorem C8_validity_invariant (ops : List (Bool × Op)) (st : State) (g : Hist) (v : ObjId)
    (e : runH ops State.init (fun _ => []) = some (st, g)) :
    (st.objs v ≠ none ↔ g v ≠ []) ∧
    (kept (g v) = true → ∃ p, owns st v p ∧ live st p) ∧
    (movedNotReassigned (g v) = true → isEmpty st v) ∧
    (g v ≠ [] → kept (g v) = false → isEmpty st v) := by
  have h0 : ∀ u, histStatus ((fun _ => [] : Hist) u) = status State.init u := by
    intro u
    simp [status, State.init, histStatus]
  obtain ⟨hwf, hg⟩ := status_run WF_init h0 e
  have hv := hg v
  have key : g v ≠ [] →
      st.objs v = some { pimpl_ := none } ∧ kept (g v) = false ∨
      ∃ p, st.objs v = some { pimpl_ := some p } ∧ kept (g v) = true := by
    intro hne
    cases hl : g v with
    | nil => exact absurd hl hne
    | cons ev r =>
      rw [hl] at hv
      unfold status at hv
      simp only [histStatus] at hv
      cases ho : st.objs v with
      | none => rw [ho] at hv; simp at hv
      | some w =>
        cases w with
        | mk q =>
          rw [ho] at hv
          cases q with
          | none => left; simpa using hv
          | some p => right; exact ⟨p, rfl, by simpa using hv⟩
  have hne_of_kept : kept (g v) = true → g v ≠ [] := by
    intro hk hn
    rw [hn] at hk
    cases hk
  refine ⟨?_, ?_, ?_, ?_⟩
  · unfold status at hv
    cases ho : st.objs v <;> cases hl : g v <;> simp [ho, hl, histStatus] at hv ⊢
  · intro hk
    rcases key (hne_of_kept hk) with ⟨_, h2⟩ | ⟨p, h1, _⟩
    · rw [hk] at h2; cases h2
    · exact ⟨p, h1, hwf.owned_live v p h1⟩
  · intro hm
    have hne : g v ≠ [] := by
      intro hn
      rw [hn] at hm
      cases hm
    rcases key hne with ⟨h1, _⟩ | ⟨p, _, h2⟩
    · exact h1
    · exfalso
      cases hl : g v with
      | nil => exact hne hl
      | cons ev r =>
        rw [hl] at hm h2
        cases ev <;> simp [movedNotReassigned, kept] at hm h2
  · intro hne hk
    rcases key hne with ⟨h1, _⟩ | ⟨p, _, h2⟩
    · exact h1
    · rw [hk] at h2; cases h2

/-- Witness of C8: after `Widget w0(42); Widget w1(std::move(w0));`, for `w0`. -/
theorem C8_validity_invariant_witness :
    (demo3.objs 0 ≠ none ↔ demoHist3 0 ≠ []) ∧
    (kept (demoHist3 0) = true → ∃ p, owns demo3 0 p ∧ live demo3 p) ∧
    (movedNotReassigned (demoHist3 0) = true → isEmpty demo3 0) ∧
    (demoHist3 0 ≠ [] → kept (demoHist3 0) = false → isEmpty demo3 0) :=
  C8_validity_invariant [(false, .construct 0 42), (false, .moveConstruct 1 0)] demo3
    demoHist3 0 rfl

/-! ## Exclusive ownership -/

theorem dispose_freed (h : Heap) (t : Option Addr) :
    (h.dispose t).freed = h.freed ++ t.toList := by
  cases t with
  | none => simp [Heap.dispose]
  | some p => simp [Heap.dispose, Heap.remove]

/-- What an operation that returned has released: nothing, or the one implementation that
the destroyed or assigned-to object owned and no longer owns. -/
theorem released_by_step {st st1 : State} {oom : Bool} {op : Op} (h : WF st)
    (e : step oom op st = .ok st1) :
    ∃ rel : Option Addr, st1.heap.freed = st.heap.freed ++ rel.toList ∧
      ∀ p, rel = some p ↔ ∃ v, op.retires = some v ∧ owns st v p ∧ ¬ owns st1 v p := by
  have hs := step_ok_inv h e
  have hnone : ∀ s1 : State, s1.heap.freed = st.heap.freed → op.retires = none →
      ∃ rel : Option Addr, s1.heap.freed = st.heap.freed ++ rel.toList ∧
        ∀ p, rel = some p ↔ ∃ v, op.retires = some v ∧ owns st v p ∧ ¬ owns s1 v p := by
    intro s1 hf hr
    refine ⟨none, by simp [hf], fun p => ⟨fun hx => Option.noConfusion hx, ?_⟩⟩
    rintro ⟨v, hv, _⟩
    rw [hr] at hv
    cases hv
  have hsome : ∀ (s1 : State) (self : ObjId) (w : Widget) (t : Option Addr),
      op.retires = some self → st.objs self = some w →
      s1.heap.freed = st.heap.freed ++ t.toList →
      (∀ p, t = some p ↔ w.pimpl_ = some p ∧ ¬ owns s1 self p) →
      ∃ rel : Option Addr, s1.heap.freed = st.heap.freed ++ rel.toList ∧
        ∀ p, rel = some p ↔ ∃ v, op.retires = some v ∧ owns st v p ∧ ¬ owns s1 v p := by
    intro s1 self w t hr hw hf ht
    refine ⟨t, hf, fun p => ⟨fun hx => ?_, ?_⟩⟩
    · have := (ht p).1 hx
      exact ⟨self, hr, owns_of_objs hw this.1, this.2⟩
    · rintro ⟨v, hv, ho, hn⟩
      rw [hr] at hv
      cases hv
      refine (ht p).2 ⟨?_, hn⟩
      unfold owns at ho
      rw [hw] at ho
      cases ho
      rfl
  cases op with
  | construct self i =>
    obtain ⟨_, _, rfl⟩ := hs
    exact hnone _ rfl rfl
  | constructA self =>
    obtain ⟨_, _, rfl⟩ := hs
    exact hnone _ rfl rfl
  | copyConstruct self rhs =>
    obtain ⟨_, _, src, _, rfl⟩ := hs
    exact hnone _ rfl rfl
  | moveConstruct self rhs =>
    obtain ⟨_, w, _, rfl⟩ := hs
    exact hnone _ rfl rfl
  | copyAssign self rhs =>
    obtain ⟨_, w, src, hw, _, rfl⟩ := hs
    refine hsome _ self w w.pimpl_ rfl hw (dispose_freed _ _) (fun p => ⟨fun hx => ⟨hx, ?_⟩,
      fun hx => hx.1⟩)
    intro ho
    have h1 : p < st.heap.next := lt_next_of_owns h (owns_of_objs hw hx)
    have h2 : st.heap.next = p := by
      simpa [owns, State.stored, State.setObj] using ho
    rw [h2] at h1
    exact Nat.lt_irrefl _ h1
  | moveAssign self rhs =>
    obtain ⟨w, w1, hw, hw1, rfl⟩ := hs
    refine hsome _ self w (if self = rhs then none else w.pimpl_) rfl hw (dispose_freed _ _)
      (fun p => ?_)
    by_cases e1 : self = rhs
    · subst e1
      rw [hw] at hw1
      cases hw1
      simp only [if_true]
      constructor
      · intro hx; cases hx
      · rintro ⟨hx, hn⟩
        exfalso
        apply hn
        simp [owns, State.stored, State.setObj, ← hx]
    · simp only [e1, if_false]
      refine ⟨fun hx => ⟨hx, ?_⟩, fun hx => hx.1⟩
      intro ho
      have h2 : w1.pimpl_ = some p := by
        simpa [owns, State.stored, State.setObj] using ho
      exact e1 (h.exclusive self rhs p (owns_of_objs hw hx) (owns_of_objs hw1 h2))
  | destroy self =>
    obtain ⟨w, hw, rfl⟩ := hs
    refine hsome _ self w w.pimpl_ rfl hw (dispose_freed _ _) (fun p => ⟨fun hx => ⟨hx, ?_⟩,
      fun hx => hx.1⟩)
    simp [owns, State.ended, State.setObj]
  | printInfo self =>
    obtain ⟨impl, _, rfl⟩ := hs
    exact hnone _ rfl rfl

/-- C9: in every reachable state, each live `Impl` is owned by exactly one live `Widget`
and every owned pointer points to a live `Impl`; no address has been deleted twice, no
deleted address is live, and every address ever handed out is either live or has been
deleted.  An operation that returns deletes at most one `Impl`, and deletes `p` exactly
when the object it destroys or assigns to owned `p` before and does not own it after; an
operation that throws changes nothing.  Destroying a live object always returns (its
`delete`, if any, is of a live `Impl`) and deletes what the object held; in particular
destroying an empty (moved-from) object leaves the free store as it was. -/
theorem C9_exclusive_ownership (st : State) (hr : Reachable st) :
    (∀ p, live st p → ∃! v, owns st v p) ∧
    (∀ v p, owns st v p → live st p) ∧
    st.heap.freed.Nodup ∧
    (∀ p, p ∈ st.heap.freed → ¬ live st p) ∧
    (∀ p, p < st.heap.next → live st p ∨ p ∈ st.heap.freed) ∧
    (∀ oom op st1, step oom op st = .ok st1 →
      ∃ rel : Option Addr, st1.heap.freed = st.heap.freed ++ rel.toList ∧
        ∀ p, rel = some p ↔ ∃ v, op.retires = some v ∧ owns st v p ∧ ¬ owns st1 v p) ∧
    (∀ oom op st1, step oom op st = .threw st1 → st1 = st) ∧
    (∀ oom v w, st.objs v = some w →
      ∃ st1, step oom (.destroy v) st = .ok st1 ∧ st1.objs v = none ∧
        st1.heap = st.heap.dispose w.pimpl_) ∧
    (∀ oom v, isEmpty st v →
      ∃ st1, step oom (.destroy v) st = .ok st1 ∧ st1.heap = st.heap ∧
        st1.objs v = none) := by
  have h := WF_of_reachable hr
  refine ⟨?_, h.owned_live, h.freed_nodup, ?_, h.accounted, ?_, ?_, ?_, ?_⟩
  · intro p hp
    obtain ⟨v, hv⟩ := h.no_leak p hp
    exact ⟨v, hv, fun u hu => h.exclusive u v p hu hv⟩
  · intro p hp hl
    exact hl (h.freed_dead p hp).1
  · intro oom op st1 e
    exact released_by_step h e
  · intro oom op st1 e
    exact step_threw_inv e
  · intro oom v w hv
    refine ⟨_, Widget.dtor_eq h hv, ?_, rfl⟩
    simp [State.ended, State.setObj]
  · intro oom v hv
    refine ⟨_, Widget.dtor_eq h hv, rfl, ?_⟩
    simp [State.ended, State.setObj]

/-- Witness of C9: the state after `Widget w0(42); Widget w1(std::move(w0));`. -/
theorem C9_exclusive_ownership_witness :
    (∀ p, live demo3 p → ∃! v, owns demo3 v p) ∧
    (∀ v p, owns demo3 v p → live demo3 p) ∧
    demo3.heap.freed.Nodup ∧
    (∀ p, p ∈ demo3.heap.freed → ¬ live demo3 p) ∧
    (∀ p, p < demo3.heap.next → live demo3 p ∨ p ∈ demo3.heap.freed) ∧
    (∀ oom op st1, step oom op demo3 = .ok st1 →
      ∃ rel : Option Addr, st1.heap.freed = demo3.heap.freed ++ rel.toList ∧
        ∀ p, rel = some p ↔ ∃ v, op.retires = some v ∧ owns demo3 v p ∧ ¬ owns st1 v p) ∧
    (∀ oom op st1, step oom op demo3 = .threw st1 → st1 = demo3) ∧
    (∀ oom v w, demo3.objs v = some w →
      ∃ st1, step oom (.destroy v) demo3 = .ok st1 ∧ st1.objs v = none ∧
        st1.heap = demo3.heap.dispose w.pimpl_) ∧
    (∀ oom v, isEmpty demo3 v →
      ∃ st1, step oom (.destroy v) demo3 = .ok st1 ∧ st1.heap = demo3.heap ∧
        st1.objs v = none) :=
  C9_exclusive_ownership demo3 demo3_reachable

end Item22
